import Mathlib

/-!
Verification development for the DeepMind Earth Enhancer scripts
(deepmind_earth_enhancer.py, location_service_enhancer.py).

The Python code is shallowly embedded: pandas DataFrames become ordered
association lists of typed columns, Python dicts become association lists or
typed structures, floats become rationals, and every external collaborator
(sklearn fitting, the Gemini embedding call, joblib/json artifact IO) is an
explicit oracle parameter.  The embedded functions mirror the source line by
line; theorems about them settle the specification claims.
-/

set_option maxHeartbeats 1600000
set_option maxRecDepth 4000

namespace EarthEnhancer

/-! ### String helpers

Models, over explicit character lists, of the Python string operations used by
the scripts: character membership, the segment before the first underscore
(feature.split("_")[0]), startswith, substring occurrence, and str.replace
(which replaces every non-overlapping occurrence, scanning left to right).
-/

/-- Model of the Python test (c in s) for a single character c. -/
def strHasChar (s : String) (c : Char) : Bool := s.data.contains c

/-- Model of the Python expression feature.split("_")[0]: the segment of s
before its first underscore (s itself when s has no underscore). -/
def firstSeg (s : String) : String := String.mk (s.data.takeWhile (fun c => c ≠ '_'))

/-- Model of Python s.startswith(p). -/
def strStartsWith (s p : String) : Bool := p.data.isPrefixOf s.data

/-- Contiguous-sublist occurrence test on character lists. -/
def occursL (pat : List Char) : List Char → Bool
  | [] => pat.isEmpty
  | x :: xs => pat.isPrefixOf (x :: xs) || occursL pat xs

/-- Model of the Python test (pat in s) for strings. -/
def occursStr (pat s : String) : Bool := occursL pat.data s.data

/-- Fuel-indexed engine of str.replace: scans left to right and replaces every
non-overlapping occurrence of pat.  The fuel is always instantiated with the
length of the scanned list, which suffices because each step consumes at least
one character; it exists only to keep the recursion structural. -/
def replaceAllAux (pat rep : List Char) : Nat → List Char → List Char
  | _, [] => []
  | 0, l => l
  | Nat.succ n, x :: xs =>
    if !pat.isEmpty && pat.isPrefixOf (x :: xs) then
      rep ++ replaceAllAux pat rep n ((x :: xs).drop pat.length)
    else
      x :: replaceAllAux pat rep n xs

/-- Model of Python s.replace(pat, rep) on character lists.  The embedding only
applies it with a nonempty pattern (the source always passes base + "_"). -/
def replaceAllL (pat rep l : List Char) : List Char := replaceAllAux pat rep l.length l

/-- Model of Python s.replace(pat, rep) on strings. -/
def replaceAllStr (pat rep s : String) : String :=
  String.mk (replaceAllL pat.data rep.data s.data)

/-! ### Python scalar values

Input mappings handed to the Predictor hold either numbers or strings; the
equality test a Python dict value undergoes against a string compares unequal
when the value is numeric. -/

/-- A Python scalar as it appears in a prediction input mapping: a number
(float/int, modelled as a rational) or a string. -/
inductive PyV
  | num (q : ℚ)
  | str (s : String)
deriving DecidableEq

/-- First-match association-list lookup, modelling a Python dict read on a dict
whose literal keys are unique. -/
def lookupA : List (String × PyV) → String → Option PyV
  | [], _ => none
  | (k', v) :: rest, k => if k' = k then some v else lookupA rest k

/-- Model of the Python comparison (input_data[base] == value_string): equality
holds only when the stored value is a string equal to it. -/
def pyEqStr (v : PyV) (s : String) : Bool :=
  match v with
  | .str t => t = s
  | .num _ => false

/-! ### Predictor feature-vector reconstruction

DeepMindEarthEnhancer.predict, lines 562-570: for each stored feature name, in
order, (1) if the name contains an underscore, the substring before the FIRST
underscore is taken as a candidate one-hot base; if that substring is nonempty
(Python truthiness of the string) and is a key of the input mapping, the cell
is 1 when input[base] == feature.replace(base + "_", "") and 0 otherwise
(str.replace removes EVERY occurrence of base + "_"); (2) otherwise, if the
full feature name is a key, its value is used directly; (3) otherwise 0. -/

/-- The direct branch of the reconstruction (lines 567-570): the raw input
value under the full feature name, defaulting to 0. -/
def reconstructDirect (input : List (String × PyV)) (feature : String) : PyV :=
  match lookupA input feature with
  | some v => v
  | none => PyV.num 0

/-- One cell of the Predictor's reconstructed feature vector (lines 563-570). -/
def reconstructCell (input : List (String × PyV)) (feature : String) : PyV :=
  let baseOpt : Option String :=
    if strHasChar feature '_' then some (firstSeg feature) else none
  match baseOpt with
  | some base =>
    if base ≠ "" then
      match lookupA input base with
      | some v =>
        PyV.num (if pyEqStr v (replaceAllStr (base ++ "_") "" feature) then 1 else 0)
      | none => reconstructDirect input feature
    else reconstructDirect input feature
  | none => reconstructDirect input feature

/-- The Predictor's reconstructed feature vector over the stored expanded
feature list, in stored order (lines 562-574). -/
def reconstructVector (input : List (String × PyV)) (features : List String) : List PyV :=
  features.map (reconstructCell input)

/-! ### DataFrame model and the Preprocessor

A pandas DataFrame is modelled as an ordered association list of named typed
columns; a column is numeric (is_numeric_dtype) or object-typed, and cells may
be missing (NaN / None).  preprocess_data (lines 404-433) is transcribed loop
by loop: mean/mode imputation over features + [target], one-hot expansion of
object-typed feature columns via pd.get_dummies (which drops the original
column, appends one 0/1 column per observed distinct value in ascending sorted
order, and with dummy_na=False renders a missing cell as all zeros), and the
rebuilt feature list. -/

/-- A DataFrame column: numeric or object dtype, with possibly missing cells. -/
inductive Col
  | num (vals : List (Option ℚ))
  | obj (vals : List (Option String))
deriving DecidableEq

/-- Ordered columns of a DataFrame. -/
abbrev Cols := List (String × Col)

/-- The column labels, in order (df.columns). -/
def colNames (df : Cols) : List String := df.map Prod.fst

/-- Number of cells in a column. -/
def colLen : Col → Nat
  | Col.num vals => vals.length
  | Col.obj vals => vals.length

/-- Model of pd.api.types.is_numeric_dtype for a column of this table model. -/
def Col.isNumeric : Col → Bool
  | Col.num _ => true
  | Col.obj _ => false

/-- First-match column lookup (df[name] on unique labels). -/
def lookupCol : Cols → String → Option Col
  | [], _ => none
  | (n, c) :: rest, name => if n = name then some c else lookupCol rest name

/-- Dropping every column with a given label (how pd.get_dummies removes the
expanded original column; labels are unique in practice). -/
def removeCol : Cols → String → Cols
  | [], _ => []
  | (n, c) :: rest, f => if n = f then removeCol rest f else (n, c) :: removeCol rest f

/-- Computable lexicographic comparison of character lists by code point:
the order numpy/pandas use when sorting the observed values of a string
column.  It mirrors the standard list order, which the bridge lemma
strLtB_iff below makes precise. -/
def strLtB : List Char → List Char → Bool
  | [], [] => false
  | [], _ :: _ => true
  | _ :: _, [] => false
  | a :: as, b :: bs => if a < b then true else if b < a then false else strLtB as bs

/-- Computable string comparison (code-point lexicographic). -/
def strLt (x y : String) : Bool := strLtB x.data y.data

/-- Insert into a sorted list of distinct strings, dropping duplicates. -/
def insSort (x : String) : List String → List String
  | [] => [x]
  | y :: ys =>
    if strLt x y then x :: y :: ys else if x = y then y :: ys else y :: insSort x ys

/-- The distinct values of a list in ascending order: the order in which
pd.get_dummies lays out the one-hot columns of a categorical column. -/
def uniqueSorted (l : List String) : List String := l.foldr insSort []

/-- Mean of the non-missing cells (pandas Series.mean, NaN-skipping); none when
every cell is missing. -/
def meanQ (vals : List (Option ℚ)) : Option ℚ :=
  let xs := vals.filterMap id
  if xs.isEmpty then none else some (xs.sum / xs.length)

/-- pandas Series.mode()[0]: the most frequent non-missing value, ties broken
by the smallest value (mode returns the modal values in ascending order);
none when the series has no non-missing value (mode().empty). -/
def modeMin (vals : List (Option String)) : Option String :=
  let xs := vals.filterMap id
  match uniqueSorted xs with
  | [] => none
  | c :: cs => some (cs.foldl (fun best v => if xs.count best < xs.count v then v else best) c)

/-- Column imputation (lines 412-417): numeric columns are filled with the
column mean (an all-missing numeric column stays as is, since fillna(NaN)
changes nothing); object columns are filled with the modal value, or with the
literal unknown when the column has no non-missing value. -/
def fillCol : Col → Col
  | Col.num vals =>
    match meanQ vals with
    | some m => Col.num (vals.map fun o => match o with | some v => some v | none => some m)
    | none => Col.num vals
  | Col.obj vals =>
    let fillv := (modeMin vals).getD "unknown"
    Col.obj (vals.map fun o => match o with | some v => some v | none => some fillv)

/-- The imputation loop over features + [target]: columns not in that list, or
absent from the table, are untouched. -/
def fillDF (df : Cols) (fcols : List String) : Cols :=
  df.map fun p => if p.1 ∈ fcols then (p.1, fillCol p.2) else p

/-- The one-hot columns pd.get_dummies appends for object column c: one 0/1
column named c_value per observed distinct value, in ascending value order;
a missing cell yields 0 in every dummy column (dummy_na=False). -/
def dummyCols (c : String) (vals : List (Option String)) : Cols :=
  (uniqueSorted (vals.filterMap id)).map fun v =>
    (c ++ "_" ++ v, Col.num (vals.map fun cell => if cell = some v then some 1 else some 0))

/-- pd.get_dummies(df, columns=[c], prefix=[c], dummy_na=False): the original
column is dropped and the dummy columns are appended at the end. -/
def getDummiesOne (df : Cols) (c : String) (vals : List (Option String)) : Cols :=
  removeCol df c ++ dummyCols c vals

/-- One iteration of the categorical-expansion loop (lines 420-423): a feature
present in the table with object dtype is recorded as categorical and
expanded; any other feature leaves the table unchanged. -/
def expandStep (acc : Cols × List String) (f : String) : Cols × List String :=
  match lookupCol acc.1 f with
  | some (Col.obj vals) => (getDummiesOne acc.1 f vals, acc.2 ++ [f])
  | _ => acc

/-- The categorical-expansion loop over the configured features, returning the
expanded table and the list of features that were expanded. -/
def expandAll (df : Cols) (features : List String) : Cols × List String :=
  features.foldl expandStep (df, [])

/-- The rebuilt feature list (lines 425-430): for each original feature, in
order, the one-hot columns carrying its prefix when it was expanded, the
feature itself when it is still a column, and nothing when it is absent. -/
def newFeatures (df : Cols) (features catFeats : List String) : List String :=
  features.flatMap fun f =>
    if f ∈ catFeats then (colNames df).filter (fun c => strStartsWith c (f ++ "_"))
    else if f ∈ colNames df then [f] else []

/-- DeepMindEarthEnhancer.preprocess_data (lines 404-433): impute
features + [target], expand categorical features, rebuild the feature list. -/
def preprocess_data (df : Cols) (features : List String) (target : String) :
    Cols × List String :=
  let df1 := fillDF df (features ++ [target])
  let ed := expandAll df1 features
  (ed.1, newFeatures ed.1 features ed.2)

/-- A concrete raw table whose categorical feature name itself contains an
underscore, with observed values 4G and 5G. -/
def dfC1 : Cols :=
  [("net_type", Col.obj [some "4G", some "5G"]),
   ("t", Col.num [some 1, some 2])]

/-- A small concrete raw table: one categorical feature column, one numeric
target column and one extra non-feature numeric column (such as a timestamp
rendered numerically), used to exercise preprocess_data at a closed input. -/
def dfC9 : Cols :=
  [("kind", Col.obj [some "a", some "b"]),
   ("target", Col.num [some 1, some 2]),
   ("extra", Col.num [some 3, some 4])]

/-! ### Trained models, bundles, registry and artifact store

The sklearn estimators, the scaler and the train/test split are external
collaborators; they enter the embedding as opaque functions carried by an
MLOracle parameter.  What the embedding keeps concrete is everything the
scripts themselves decide: branch structure, error strings, the model family
chosen per target name, the metric names, the registry updates and the
artifact-existence checks. -/

/-- A fitted model: the gradient-boosted regressor has no predict_proba,
the random-forest classifier carries one (sklearn hasattr distinction used at
lines 579-582). -/
inductive MLModel
  | regressor (predictF : List ℚ → ℚ)
  | classifier (predictF : List ℚ → PyV) (probaF : List ℚ → List ℚ)

/-- The model_info dictionary built by train_model (lines 460-490): task kind
string, named metrics, per-feature importances, and the fitted scaler that is
stored into it at line 490. -/
structure ModelInfo where
  type : String
  metrics : List (String × ℚ)
  feature_importance : Option (List (String × ℚ))
  scaler : List ℚ → List ℚ

/-- One entry of self.models (line 492): model, feature list, info. -/
structure Bundle where
  model : MLModel
  features : List String
  info : ModelInfo

/-- The in-memory model registry self.models. -/
def Registry := String → Option Bundle

/-- Registry write self.models[k] = b. -/
def updateReg (r : Registry) (k : String) (b : Option Bundle) : Registry :=
  fun x => if x = k then b else r x

/-- The empty registry (a fresh enhancer instance). -/
def regEmpty : Registry := fun _ => none

/-- The info part of the persisted metadata JSON (no scaler: save_model
serializes everything of info except the scaler, line 508). -/
structure MetaInfoJ where
  type : String
  metrics : List (String × ℚ)
  feature_importance : Option (List (String × ℚ))

/-- The persisted metadata document: feature list plus info (line 517). -/
structure MetaData where
  features : List String
  info : MetaInfoJ

/-- The artifact store seen by load_model: for each path, none means the file
does not exist (os.path.exists fails); some none means the file exists but
deserialization raises; some (some artifact) is a successful load. -/
structure FS where
  modelFile : String → Option (Option MLModel)
  scalerFile : String → Option (Option (List ℚ → List ℚ))
  metaFile : String → Option (Option MetaData)

/-- An artifact store with no files at all. -/
def fsEmpty : FS :=
  { modelFile := fun _ => none, scalerFile := fun _ => none, metaFile := fun _ => none }

def modelPath (dt : String) : String := "./models/" ++ dt ++ "_model.joblib"

def scalerPath (dt : String) : String := "./models/" ++ dt ++ "_scaler.joblib"

def metadataPath (dt : String) : String := "./models/" ++ dt ++ "_metadata.json"

/-- DeepMindEarthEnhancer.load_model (lines 525-547): unless all three
artifact files exist, return False without touching the registry; otherwise
load them (a deserialization error also returns False with no registry
mutation) and register the reconstructed bundle, merging the loaded scaler
into the metadata info. -/
def load_model (fs : FS) (models : Registry) (dt : String) : Bool × Registry :=
  if (fs.modelFile (modelPath dt)).isSome && (fs.scalerFile (scalerPath dt)).isSome
      && (fs.metaFile (metadataPath dt)).isSome then
    match fs.modelFile (modelPath dt), fs.scalerFile (scalerPath dt),
        fs.metaFile (metadataPath dt) with
    | some (some m), some (some sc), some (some md) =>
      (true, updateReg models dt (some
        { model := m, features := md.features,
          info := { type := md.info.type, metrics := md.info.metrics,
                    feature_importance := md.info.feature_importance,
                    scaler := sc } }))
    | _, _, _ => (false, models)
  else (false, models)

/-- The PredictionResult dictionary (line 584): a prediction and the
confidence slot, which predict fills only for models with predict_proba. -/
structure PredResult where
  prediction : PyV
  confidence : Option ℚ
deriving DecidableEq

/-- Numeric conversion the fitted scaler performs on the assembled row:
a string cell makes scaler.transform raise, which predict catches. -/
def toNums : List PyV → Option (List ℚ)
  | [] => some []
  | PyV.num q :: rest => (toNums rest).map fun l => q :: l
  | PyV.str _ :: _ => none

/-- model.predict on a single scaled row. -/
def mlPredict : MLModel → List ℚ → PyV
  | MLModel.regressor f, xs => PyV.num (f xs)
  | MLModel.classifier f _, xs => f xs

/-- numpy array.max() over a nonempty list of class probabilities. -/
def listMax (x : ℚ) (l : List ℚ) : ℚ := l.foldl max x

/-- The body of predict once a bundle is at hand (lines 556-586): rebuild the
feature vector, scale it, run inference, and set confidence to the maximum
class probability when the model exposes predict_proba (lines 579-582);
an exception anywhere (non-numeric cell at scaling, or proba.max() on an
empty array) is caught and returned as an error result. -/
def predictCore (bundle : Bundle) (input : List (String × PyV)) :
    Except String PredResult :=
  match toNums (reconstructVector input bundle.features) with
  | none => Except.error "could not convert string to float"
  | some xs =>
    let scaled := bundle.info.scaler xs
    let pred := mlPredict bundle.model scaled
    match bundle.model with
    | MLModel.regressor _ => Except.ok { prediction := pred, confidence := none }
    | MLModel.classifier _ probaF =>
      match probaF scaled with
      | [] => Except.error "zero-size array to reduction operation maximum"
      | p :: ps => Except.ok { prediction := pred, confidence := some (listMax p ps) }

/-- DeepMindEarthEnhancer.predict (lines 549-589): if no bundle is registered
for the dataset type, attempt load_model; if still unavailable, return the
no-model error; otherwise run the core prediction on the registered bundle. -/
def predict (fs : FS) (models : Registry) (dt : String)
    (input : List (String × PyV)) : Except String PredResult × Registry :=
  let lr := if (models dt).isSome then (true, models) else load_model fs models dt
  if lr.1 then
    match lr.2 dt with
    | some bundle => (predictCore bundle input, lr.2)
    | none => (Except.error ("No model available for " ++ dt), lr.2)
  else (Except.error ("No model available for " ++ dt), lr.2)

/-- The fixed task-kind convention (line 463): regression exactly for the two
bounded-score target names. -/
def targetIsRegression (target : String) : Bool :=
  target = "avg_sentiment" || target = "reliability_score"

/-- Outcome of train_model: the error dictionary or the model_info. -/
inductive TrainOut
  | err (msg : String)
  | ok (info : ModelInfo)

/-- The sklearn collaborators of train_model, abstracted: the deterministic
80/20 split (random_state=42), scaler fitting, both estimator families (each
returning its predict function and its feature_importances_), and the four
metric functions; f1w additionally takes the zero_division argument, which
the code fixes to 0. -/
structure MLOracle where
  tts : List (List ℚ) → List PyV →
    (List (List ℚ) × List (List ℚ) × List PyV × List PyV)
  fitScaler : List (List ℚ) → (List ℚ → List ℚ)
  fitGBR : List (List ℚ) → List PyV → ((List ℚ → ℚ) × List ℚ)
  fitRFC : List (List ℚ) → List PyV → ((List ℚ → PyV) × (List ℚ → List ℚ) × List ℚ)
  mseM : List PyV → List PyV → ℚ
  r2M : List PyV → List PyV → ℚ
  accM : List PyV → List PyV → ℚ
  f1wM : List PyV → List PyV → ℚ → ℚ

/-- A trivial oracle instance, used only to exercise theorems at closed
inputs. -/
def oracleTriv : MLOracle :=
  { tts := fun X y => (X, X, y, y),
    fitScaler := fun _ => id,
    fitGBR := fun _ _ => (fun _ => 0, []),
    fitRFC := fun _ _ => (fun _ => PyV.num 0, fun _ => [1], []),
    mseM := fun _ _ => 0, r2M := fun _ _ => 0,
    accM := fun _ _ => 0, f1wM := fun _ _ _ => 0 }

/-- Numeric view of a fully imputed column, as sklearn reads it. -/
def colNums : Col → List ℚ
  | Col.num vals => vals.map fun o => o.getD 0
  | Col.obj _ => []

/-- df[new_features].values: the row-major numeric matrix over the selected
columns. -/
def featureMatrix (df : Cols) (new_features : List String) : List (List ℚ) :=
  (new_features.map fun g =>
    match lookupCol df g with
    | some c => colNums c
    | none => []).transpose

/-- df[target].values: the target cells as Python scalars. -/
def targetVals (df : Cols) (target : String) : List PyV :=
  match lookupCol df target with
  | some (Col.num vals) => vals.map fun o => PyV.num (o.getD 0)
  | some (Col.obj vals) => vals.map fun o => PyV.str (o.getD "")
  | none => []

/-- DeepMindEarthEnhancer.train_model (lines 435-493): fail on an empty
feature list or a missing target column, before any ML work; otherwise split,
scale, pick the model family from the target name, fit and evaluate via the
oracle, record metrics and feature importances (both families expose
feature_importances_), store the scaler into the info, and register the
bundle under the dataset type. -/
def train_model (oracle : MLOracle) (models : Registry) (df : Cols)
    (dataset_type target : String) (new_features : List String) :
    TrainOut × Registry :=
  if new_features.isEmpty then
    (TrainOut.err "No features available for training.", models)
  else if target ∉ colNames df then
    (TrainOut.err ("Target column \x27" ++ target ++ "\x27 not found."), models)
  else
    let X := featureMatrix df new_features
    let y := targetVals df target
    let s := oracle.tts X y
    let scaler := oracle.fitScaler s.1
    let XtrS := s.1.map scaler
    let XteS := s.2.1.map scaler
    if targetIsRegression target then
      let fitted := oracle.fitGBR XtrS s.2.2.1
      let yPred := XteS.map fun row => PyV.num (fitted.1 row)
      let info : ModelInfo :=
        { type := "regression",
          metrics := [("mse", oracle.mseM s.2.2.2 yPred), ("r2", oracle.r2M s.2.2.2 yPred)],
          feature_importance := some (new_features.zip fitted.2),
          scaler := scaler }
      (TrainOut.ok info,
        updateReg models dataset_type
          (some { model := MLModel.regressor fitted.1,
                  features := new_features, info := info }))
    else
      let fitted := oracle.fitRFC XtrS s.2.2.1
      let yPred := XteS.map fitted.1
      let info : ModelInfo :=
        { type := "classification",
          metrics := [("accuracy", oracle.accM s.2.2.2 yPred),
                      ("f1", oracle.f1wM s.2.2.2 yPred 0)],
          feature_importance := some (new_features.zip fitted.2.2),
          scaler := scaler }
      (TrainOut.ok info,
        updateReg models dataset_type
          (some { model := MLModel.classifier fitted.1 fitted.2.1,
                  features := new_features, info := info }))

/-- A concrete classifier bundle for closed-instance checks. -/
def bundleC7 : Bundle :=
  { model := MLModel.classifier (fun _ => PyV.num 7) (fun _ => [1, 0]),
    features := ["x"],
    info := { type := "classification", metrics := [], feature_importance := none,
              scaler := id } }

/-- A registry holding only the concrete classifier bundle. -/
def modelsC7 : Registry := updateReg regEmpty "network" (some bundleC7)

/-- A concrete loadable regressor artifact. -/
def mC6 : MLModel := MLModel.regressor fun _ => 0

/-- A concrete loadable scaler artifact. -/
def scC6 : List ℚ → List ℚ := id

/-- A concrete loadable metadata document. -/
def mdC6 : MetaData :=
  { features := ["x"],
    info := { type := "regression", metrics := [("mse", 0), ("r2", 1)],
              feature_importance := none } }

/-- An artifact store holding the three network artifacts and nothing else. -/
def fsC6 : FS :=
  { modelFile := fun p => if p = modelPath "network" then some (some mC6) else none,
    scalerFile := fun p => if p = scalerPath "network" then some (some scC6) else none,
    metaFile := fun p => if p = metadataPath "network" then some (some mdC6) else none }

/-! ### Enhancement Composer

enhance_location_data (lines 591-635) works on a location entity with nested
connectivity and social sections.  The sections are modelled as typed
structures whose Option fields stand for present/absent dictionary keys (a
JSON null under a present key, which would crash the arithmetic at line 618,
is outside the model).  The nested call to self.predict is the predict
embedding above, so registry loading side effects are threaded through. -/

/-- The connectivity section: the four raw signals read at lines 597-600 and
the two slots predictions are merged into at lines 610-611. -/
structure Connectivity where
  networkType : Option String
  signalStrength : Option ℚ
  bandwidth : Option ℚ
  latency : Option ℚ
  reliability_score : Option PyV
  prediction_confidence : Option (Option ℚ)

/-- The social section: the volume signal read at lines 617-620 and the two
slots predictions are merged into at lines 628-629. -/
structure Social where
  volume : Option ℚ
  enhanced_sentiment : Option PyV
  prediction_confidence : Option (Option ℚ)

/-- A location entity as enhance_location_data sees it. -/
structure Entity where
  name : Option String
  connectivity : Option Connectivity
  social : Option Social
  enhanced_by_deepmind : Option Bool
  enhancement_timestamp : Option String

/-- A wall-clock instant, as datetime.now() yields it. -/
structure Timestamp where
  year : Nat
  month : Nat
  day : Nat
  hour : Nat
  minute : Nat
  second : Nat
  microsecond : Nat

/-- Field bounds of a well-formed datetime value. -/
def Timestamp.valid (t : Timestamp) : Prop :=
  1 ≤ t.year ∧ t.year ≤ 9999 ∧ 1 ≤ t.month ∧ t.month ≤ 12 ∧ 1 ≤ t.day ∧ t.day ≤ 31 ∧
  t.hour ≤ 23 ∧ t.minute ≤ 59 ∧ t.second ≤ 59 ∧ t.microsecond ≤ 999999

instance (t : Timestamp) : Decidable t.valid := by
  unfold Timestamp.valid
  infer_instance

/-- Zero-padding of a decimal rendering to a fixed width. -/
def padNum (w n : Nat) : String :=
  let s := toString n
  if s.length < w then String.mk (List.replicate (w - s.length) '0') ++ s else s

/-- Model of datetime.isoformat(): YYYY-MM-DDTHH:MM:SS with the .ffffff
microsecond part present exactly when the microsecond field is nonzero. -/
def isoformat (t : Timestamp) : String :=
  padNum 4 t.year ++ "-" ++ padNum 2 t.month ++ "-" ++ padNum 2 t.day ++ "T" ++
  padNum 2 t.hour ++ ":" ++ padNum 2 t.minute ++ ":" ++ padNum 2 t.second ++
  (if t.microsecond = 0 then "" else "." ++ padNum 6 t.microsecond)

/-- A string in ISO-8601 form: the isoformat rendering of a valid instant. -/
def IsIso8601 (s : String) : Prop := ∃ t : Timestamp, t.valid ∧ s = isoformat t

/-- One dataset configuration entry, as loaded from dataset_configs.json. -/
structure DatasetCfg where
  id : String
  features : List String
  target : String

/-- The dataset registry self.datasets (truthiness of .get is isSome). -/
def Datasets := String → Option DatasetCfg

/-- The network_input dictionary (lines 596-601): Option values stand for the
None entries that .get produces for absent raw fields. -/
def networkInput (c : Connectivity) : List (String × Option PyV) :=
  [("network_type", c.networkType.map PyV.str),
   ("signal_strength", c.signalStrength.map PyV.num),
   ("download_speed", c.bandwidth.map PyV.num),
   ("latency", c.latency.map PyV.num)]

/-- The social_input dictionary (lines 617-621): the fixed linear heuristics
volume, volume times 5, volume times 0.3, volume times 0.7, each with the
.get default 0 when volume is absent; only total_posts can be None. -/
def socialInput (s : Social) : List (String × Option PyV) :=
  [("total_posts", s.volume.map PyV.num),
   ("total_likes", some (PyV.num ((s.volume.getD 0) * 5))),
   ("total_retweets", some (PyV.num ((s.volume.getD 0) * (3 / 10)))),
   ("unique_users", some (PyV.num ((s.volume.getD 0) * (7 / 10))))]

/-- The None-filtering comprehension at lines 602 and 622. -/
def filterNone (l : List (String × Option PyV)) : List (String × PyV) :=
  l.filterMap fun p => p.2.map fun v => (p.1, v)

/-- Python key membership (feat in dict). -/
def hasKey (l : List (String × PyV)) (k : String) : Bool :=
  (l.map Prod.fst).contains k

/-- The network half of enhance_location_data (lines 595-613): requires the
connectivity section and a network dataset config; every configured feature
must survive None-filtering or the sub-domain is skipped; a successful
prediction merges reliability_score and prediction_confidence into the
connectivity section, an error result merges nothing. -/
def enhanceNetwork (fs : FS) (models : Registry) (datasets : Datasets)
    (e : Entity) : Entity × Registry :=
  match e.connectivity with
  | some conn =>
    if (datasets "network").isSome then
      let filtered := filterNone (networkInput conn)
      let feats := ((datasets "network").map DatasetCfg.features).getD []
      if feats.all fun feat => hasKey filtered feat then
        match predict fs models "network" filtered with
        | (Except.ok r, ms) =>
          let conn2 : Connectivity :=
            { conn with reliability_score := some r.prediction,
                        prediction_confidence := some r.confidence }
          ({ e with connectivity := some conn2 }, ms)
        | (Except.error _, ms) => (e, ms)
      else (e, models)
    else (e, models)
  | none => (e, models)

/-- The social half of enhance_location_data (lines 615-631); the raw volume
is read from the original entity orig (location_data) while predictions are
merged into the running enhanced entity cur. -/
def enhanceSocial (fs : FS) (models : Registry) (datasets : Datasets)
    (orig cur : Entity) : Entity × Registry :=
  match orig.social, cur.social with
  | some sOrig, some sCur =>
    if (datasets "social").isSome then
      let filtered := filterNone (socialInput sOrig)
      let feats := ((datasets "social").map DatasetCfg.features).getD []
      if feats.all fun feat => hasKey filtered feat then
        match predict fs models "social" filtered with
        | (Except.ok r, ms) =>
          let soc2 : Social :=
            { sCur with enhanced_sentiment := some r.prediction,
                        prediction_confidence := some r.confidence }
          ({ cur with social := some soc2 }, ms)
        | (Except.error _, ms) => (cur, ms)
      else (cur, models)
    else (cur, models)
  | _, _ => (cur, models)

/-- DeepMindEarthEnhancer.enhance_location_data (lines 591-635): run the
network then the social sub-domain, threading the registry, and stamp the
result as enhanced with the current instant, unconditionally. -/
def enhance_location_data (fs : FS) (models : Registry) (datasets : Datasets)
    (now : Timestamp) (e : Entity) : Entity × Registry :=
  let s1 := enhanceNetwork fs models datasets e
  let s2 := enhanceSocial fs s1.2 datasets e s1.1
  ({ s2.1 with enhanced_by_deepmind := some true,
               enhancement_timestamp := some (isoformat now) }, s2.2)

/-- An entity with no sections, for closed-instance checks. -/
def entMin : Entity :=
  { name := none, connectivity := none, social := none,
    enhanced_by_deepmind := none, enhancement_timestamp := none }

/-- A concrete instant. -/
def now0 : Timestamp :=
  { year := 2026, month := 10, day := 12, hour := 3, minute := 4, second := 5,
    microsecond := 0 }

/-- A dataset registry with no configurations. -/
def dsNone : Datasets := fun _ => none

/-! ### Chunk Synthesizer

process_location_memory_to_chunks (lines 109-164).  The record is modelled
with typed sections: an Option section is none when the key is absent, the
value is an empty (falsy) dictionary, or the value is not a dictionary — all
three make the source skip the section.  Traits are an association list whose
emptiness is the truthiness test at line 144. -/

/-- The voiceCharacteristics subsection (tone and pace read at line 150). -/
structure VoiceChar where
  tone : Option String
  pace : Option String

/-- The culturalInfluence subsection (lines 152-155). -/
structure Cultural where
  primaryCulture : Option String
  languages : List String

/-- The personality_data section (lines 141-155). -/
structure PersonalityData where
  traits : List (String × ℚ)
  voiceCharacteristics : Option VoiceChar
  culturalInfluence : Option Cultural

/-- The voice_profile section (lines 157-163). -/
structure VoiceProfile where
  voiceId : Option String
  stability : Option ℚ
  similarityBoost : Option ℚ

/-- The coordinates field: a structured point dictionary or a textual
"(lon, lat)" form (lines 116-128). -/
inductive CoordVal
  | dict (x y : Option ℚ)
  | txt (s : String)

/-- A location_memories record as the chunker reads it. -/
structure LocationMemory where
  location_name : Option String
  location_id : Option String
  id : Option String
  coordinates : Option CoordVal
  last_interaction : Option String
  total_interactions : Option Int
  blockchain_address : Option String
  personality_data : Option PersonalityData
  voice_profile : Option VoiceProfile

/-- Deterministic decimal-style rendering of a rational, standing in for
Python str(float); the exact digits are irrelevant to every claim. -/
def showQ (q : ℚ) : String :=
  if q.den = 1 then toString q.num else toString q.num ++ "/" ++ toString q.den

/-- The {v*100:.0f}% formatting used for traits and voice-profile numbers
(rounding at half modelled with round; CPython uses round-half-even there,
which differs only at exact halves). -/
def pct (q : ℚ) : String := toString (round (q * 100) : ℤ) ++ "%"

/-- Python str.strip("()"): remove leading and trailing parenthesis
characters. -/
def stripParens (s : String) : String :=
  String.mk (((s.data.dropWhile fun c => c = '(' ∨ c = ')').reverse.dropWhile
    fun c => c = '(' ∨ c = ')').reverse)

/-- Python split(",") on a character list: one part per comma separator. -/
def splitComma (l : List Char) : List (List Char) :=
  l.foldr (fun c acc =>
    if c = ',' then [] :: acc else (c :: acc.headD []) :: acc.tail) [[]]

def digitsToNat (l : List Char) : Nat :=
  l.foldl (fun acc c => acc * 10 + (c.toNat - 48)) 0

/-- Model of Python float() on a plain optionally-signed decimal literal with
surrounding spaces; anything else (as well as the exponent and infinity
forms, which the coordinate strings never use) yields none, standing for the
ValueError caught at line 127. -/
def parseFloat (s : String) : Option ℚ :=
  let t := (((s.data.dropWhile fun c => c = ' ').reverse.dropWhile
    fun c => c = ' ').reverse)
  let su : ℚ × List Char :=
    match t with
    | '-' :: rest => (-1, rest)
    | '+' :: rest => (1, rest)
    | _ => (1, t)
  let intPart := su.2.takeWhile Char.isDigit
  let rest := su.2.drop intPart.length
  match rest with
  | [] => if intPart.isEmpty then none else some (su.1 * digitsToNat intPart)
  | '.' :: frac =>
    if frac.all Char.isDigit ∧ ¬ (intPart.isEmpty ∧ frac.isEmpty) then
      some (su.1 * ((digitsToNat intPart : ℚ)
        + (digitsToNat frac : ℚ) / (10 ^ frac.length)))
    else none
  | _ => none

/-- record.get("location_name", "Unknown Location"). -/
def locName (r : LocationMemory) : String := r.location_name.getD "Unknown Location"

/-- The rendered (longitude, latitude) pair (lines 116-128): structured
coordinates read x and y with an N/A default; textual coordinates are
stripped of parentheses and must split on the comma into exactly two
float-parsable parts, otherwise both stay N/A. -/
def coordStrings (r : LocationMemory) : String × String :=
  match r.coordinates with
  | some (CoordVal.dict x y) => ((x.map showQ).getD "N/A", (y.map showQ).getD "N/A")
  | some (CoordVal.txt s) =>
    match splitComma (stripParens s).data with
    | [l1, l2] =>
      match parseFloat (String.mk l1), parseFloat (String.mk l2) with
      | some lon, some lat => (showQ lon, showQ lat)
      | _, _ => ("N/A", "N/A")
    | _ => ("N/A", "N/A")
  | none => ("N/A", "N/A")

/-- The mandatory identity + coordinates + interaction-summary chunk
(lines 134-139), always emitted first. -/
def identityChunk (r : LocationMemory) : String :=
  "Location: " ++ locName r ++ " (Business ID: " ++ r.location_id.getD "N/A"
    ++ ", DB ID: " ++ r.id.getD "N/A" ++ "). "
  ++ "Coordinates: (" ++ (coordStrings r).1 ++ ", " ++ (coordStrings r).2 ++ "). "
  ++ "Last interaction: " ++ r.last_interaction.getD "N/A"
  ++ ". Total interactions: " ++ toString (r.total_interactions.getD 0) ++ ". "
  ++ "Blockchain address: " ++ r.blockchain_address.getD "N/A" ++ "."

/-- The personality-traits chunk (lines 143-146). -/
def traitsChunk (name : String) (pd : PersonalityData) : String :=
  let traits_str := String.intercalate ", " (pd.traits.map fun kv =>
    replaceAllStr "_" " " kv.1 ++ ": " ++ pct kv.2)
  "The AI personality for " ++ name ++ " exhibits traits such as " ++ traits_str ++ "."

/-- The voice-characteristics chunk (lines 148-150). -/
def voiceChunk (vc : VoiceChar) : String :=
  "Its voice is typically " ++ vc.tone.getD "N/A" ++ " and " ++ vc.pace.getD "N/A" ++ "."

/-- The cultural-influences chunk (lines 152-155). -/
def culturalChunk (name : String) (cu : Cultural) : String :=
  let lang_str := String.intercalate ", " cu.languages
  "Cultural influences for " ++ name ++ " include primary culture: "
    ++ cu.primaryCulture.getD "N/A" ++ ", languages: "
    ++ (if lang_str = "" then "N/A" else lang_str) ++ "."

/-- The voice-profile chunk (lines 157-163). -/
def voiceProfileChunk (name : String) (vp : VoiceProfile) : String :=
  "Voice profile for " ++ name ++ ": ElevenLabs Voice ID is "
    ++ vp.voiceId.getD "N/A" ++ ", stability " ++ pct (vp.stability.getD 0)
    ++ ", similarity boost " ++ pct (vp.similarityBoost.getD 0) ++ "."

/-- DeepMindEarthEnhancer.process_location_memory_to_chunks (lines 109-164),
as the source appends: the mandatory chunk, then under a present
personality_data section the traits, voice-characteristics and
cultural-influences chunks each when non-empty, then the voice-profile
chunk when that section is present and non-empty. -/
def process_location_memory_to_chunks (r : LocationMemory) : List String :=
  let chunks : List String := []
  let chunks := chunks ++ [identityChunk r]
  let chunks :=
    match r.personality_data with
    | some pd =>
      let chunks :=
        if pd.traits.isEmpty then chunks else chunks ++ [traitsChunk (locName r) pd]
      let chunks :=
        match pd.voiceCharacteristics with
        | some vc => chunks ++ [voiceChunk vc]
        | none => chunks
      match pd.culturalInfluence with
      | some cu => chunks ++ [culturalChunk (locName r) cu]
      | none => chunks
    | none => chunks
  match r.voice_profile with
  | some vp => chunks ++ [voiceProfileChunk (locName r) vp]
  | none => chunks

/-- The traits chunk the record contributes: one exactly when
personality_data is present with non-empty traits. -/
def traitsChunkOpt (r : LocationMemory) : List String :=
  match r.personality_data with
  | some pd => if pd.traits.isEmpty then [] else [traitsChunk (locName r) pd]
  | none => []

/-- The voice-characteristics chunk the record contributes. -/
def vcChunkOpt (r : LocationMemory) : List String :=
  match r.personality_data with
  | some pd =>
    match pd.voiceCharacteristics with
    | some vc => [voiceChunk vc]
    | none => []
  | none => []

/-- The cultural-influences chunk the record contributes. -/
def cuChunkOpt (r : LocationMemory) : List String :=
  match r.personality_data with
  | some pd =>
    match pd.culturalInfluence with
    | some cu => [culturalChunk (locName r) cu]
    | none => []
  | none => []

/-- The voice-profile chunk the record contributes. -/
def vpChunkOpt (r : LocationMemory) : List String :=
  match r.voice_profile with
  | some vp => [voiceProfileChunk (locName r) vp]
  | none => []

/-- A minimal record: identity and coordinates only. -/
def recMinimal : LocationMemory :=
  { location_name := some "Paris", location_id := some "biz-1", id := some "7",
    coordinates := some (CoordVal.dict (some 2) (some 48)),
    last_interaction := none, total_interactions := some 12,
    blockchain_address := none, personality_data := none, voice_profile := none }

/-! ### Embedding Pipeline

generate_embeddings_for_chunks (lines 166-212): the Gemini call is the
oracle parameter embed; none models a raised exception, some vs a response
whose embedding list is vs (response.get('embedding', []) makes a missing
key an empty list, which the length check treats as a mismatch). -/

/-- One row of the in-memory embedding result. -/
structure EmbeddingRecord where
  text_chunk : String
  embedding : Option (List ℚ)
  source_table : String
  source_record_id : String
  model_used : String
deriving DecidableEq

def embeddingModelName : String := "models/embedding-001"

/-- Processing of one batch (lines 185-211): on an exception or an
embedding-count mismatch every chunk of the batch gets a None embedding (no
partial assignment); on a count match chunks and vectors are zipped in
order. -/
def procBatch (embed : List String → Option (List (List ℚ))) (st rid : String)
    (batch : List String) : List EmbeddingRecord :=
  match embed batch with
  | some vs =>
    if vs.length = batch.length then
      (batch.zip vs).map fun cv =>
        { text_chunk := cv.1, embedding := some cv.2, source_table := st,
          source_record_id := rid, model_used := embeddingModelName }
    else
      batch.map fun c =>
        { text_chunk := c, embedding := none, source_table := st,
          source_record_id := rid, model_used := embeddingModelName }
  | none =>
    batch.map fun c =>
      { text_chunk := c, embedding := none, source_table := st,
        source_record_id := rid, model_used := embeddingModelName }

/-- The batch slicing of the loop for i in range(0, len, 100) (line 183).
The fuel is instantiated with the list length; each step consumes at least
one element. -/
def batches100Aux : Nat → List String → List (List String)
  | _, [] => []
  | 0, _ => []
  | Nat.succ n, l => l.take 100 :: batches100Aux n (l.drop 100)

def batches100 (l : List String) : List (List String) := batches100Aux l.length l

/-- DeepMindEarthEnhancer.generate_embeddings_for_chunks (lines 179-212):
process the chunks in batches of 100, appending each batch's records in
order; a failed batch degrades to None embeddings and later batches are
still processed. -/
def generate_embeddings_for_chunks (embed : List String → Option (List (List ℚ)))
    (chunks : List String) (st rid : String) : List EmbeddingRecord :=
  (batches100 chunks).flatMap (procBatch embed st rid)

/-- 150 identical chunks, for the two-batch scenario. -/
def chunks150 : List String := List.replicate 150 "c"

/-- An embedding capability that succeeds exactly on full batches of 100, so
the second (50-chunk) batch of chunks150 raises. -/
def embedC2 (b : List String) : Option (List (List ℚ)) :=
  if b.length = 100 then some (b.map fun _ => [1]) else none

/-! ### Helper lemmas on the string model -/

theorem str_data_append (a b : String) : (a ++ b).data = a.data ++ b.data := rfl

theorem strMk_data (s : String) : String.mk s.data = s := rfl

theorem takeWhile_all_append_stop {p : Char → Bool} {l : List Char} (y : Char)
    (r : List Char) (hl : ∀ x ∈ l, p x = true) (hy : p y = false) :
    (l ++ y :: r).takeWhile p = l := by
  induction l with
  | nil => simp [List.takeWhile, hy]
  | cons a as ih =>
    have ha : p a = true := hl a (by simp)
    have has : ∀ x ∈ as, p x = true := fun x hx => hl x (by simp [hx])
    simp [List.takeWhile, ha, ih has]

/-- The first underscore-segment of f ++ "_" ++ v is f when f has none. -/
theorem firstSeg_append (f v : String) (hf : strHasChar f '_' = false) :
    firstSeg (f ++ "_" ++ v) = f := by
  have hdata : (f ++ "_" ++ v).data = f.data ++ '_' :: v.data := by
    simp [str_data_append]
  have hmem : '_' ∉ f.data := by
    simpa [strHasChar] using hf
  have hall : ∀ x ∈ f.data, (fun c => decide (c ≠ '_')) x = true := by
    intro x hx
    have : x ≠ '_' := fun h => hmem (h ▸ hx)
    simpa using this
  unfold firstSeg
  rw [hdata, takeWhile_all_append_stop '_' v.data hall (by simp)]

theorem isPrefixOf_append_self (l r : List Char) : l.isPrefixOf (l ++ r) = true := by
  induction l with
  | nil => simp [List.isPrefixOf]
  | cons a as ih => simp [List.isPrefixOf, ih]

/-- replaceAllAux is the identity on a list in which the pattern never occurs,
whatever the fuel. -/
theorem replaceAllAux_no_occur {pat rep : List Char} :
    ∀ (fuel : Nat) (l : List Char), occursL pat l = false →
      replaceAllAux pat rep fuel l = l := by
  intro fuel
  induction fuel with
  | zero => intro l _; cases l <;> simp [replaceAllAux]
  | succ n ih =>
    intro l hno
    cases l with
    | nil => simp [replaceAllAux]
    | cons x xs =>
      have h1 : pat.isPrefixOf (x :: xs) = false := by
        simp [occursL] at hno
        exact hno.1
      have h2 : occursL pat xs = false := by
        simp [occursL] at hno
        exact hno.2
      simp [replaceAllAux, h1, ih xs h2]

/-- Removing the pattern from pat ++ rest when the pattern does not reoccur in
rest leaves exactly rep ++ rest. -/
theorem replaceAllL_prefix (pat rep rest : List Char) (hne : pat ≠ [])
    (hno : occursL pat rest = false) :
    replaceAllL pat rep (pat ++ rest) = rep ++ rest := by
  cases pat with
  | nil => exact absurd rfl hne
  | cons p ps =>
    have hlen : (p :: ps ++ rest).length = Nat.succ (ps.length + rest.length) := by
      simp [Nat.succ_eq_add_one]
    unfold replaceAllL
    rw [hlen]
    have hpre : (p :: ps).isPrefixOf (p :: ps ++ rest) = true :=
      isPrefixOf_append_self (p :: ps) rest
    have hguard : (!(p :: ps).isEmpty && (p :: ps).isPrefixOf (p :: (ps ++ rest))) = true := by
      simp only [List.isEmpty]
      simp only [List.cons_append] at hpre
      simp [hpre]
    show replaceAllAux (p :: ps) rep (Nat.succ (ps.length + rest.length)) (p :: (ps ++ rest))
        = rep ++ rest
    rw [replaceAllAux, if_pos hguard]
    have hdrop : (p :: (ps ++ rest)).drop (p :: ps).length = rest := by
      have := List.drop_left (p :: ps) rest
      simp only [List.cons_append] at this
      exact this
    rw [hdrop, replaceAllAux_no_occur _ rest hno]

/-- On whole strings: (f ++ "_" ++ v).replace(f ++ "_", "") = v provided
f ++ "_" does not occur inside v. -/
theorem replaceAllStr_append (f v : String)
    (hno : occursStr (f ++ "_") v = false) :
    replaceAllStr (f ++ "_") "" (f ++ "_" ++ v) = v := by
  unfold replaceAllStr
  have hdata : (f ++ "_" ++ v).data = (f ++ "_").data ++ v.data := by
    simp [str_data_append]
  have hne : (f ++ "_").data ≠ [] := by
    simp [str_data_append]
  have hno' : occursL (f ++ "_").data v.data = false := by
    simpa [occursStr] using hno
  unfold replaceAllL
  rw [hdata]
  have hmain := replaceAllL_prefix (f ++ "_").data ("" : String).data v.data hne hno'
  unfold replaceAllL at hmain
  rw [hmain]
  show String.mk v.data = v
  exact strMk_data v

theorem strHasChar_append_mid (f v : String) :
    strHasChar (f ++ "_" ++ v) '_' = true := by
  simp [strHasChar, str_data_append, List.contains_iff_exists_mem_beq]

/-- The segment before the first underscore never itself contains one. -/
theorem strHasChar_firstSeg (s : String) : strHasChar (firstSeg s) '_' = false := by
  simp only [strHasChar, firstSeg]
  by_contra h
  rw [Bool.not_eq_false] at h
  have hmem : '_' ∈ s.data.takeWhile (fun c => decide (c ≠ '_')) := by
    simpa [List.contains_iff_exists_mem_beq] using h
  have := List.mem_takeWhile_imp hmem
  simp at this

theorem firstSeg_ne_self (feature : String) (h : strHasChar feature '_' = true) :
    firstSeg feature ≠ feature := by
  intro he
  have hfs := strHasChar_firstSeg feature
  rw [he, h] at hfs
  simp at hfs

/-- C10 claim theorem (amended form).  When a stored feature name contains an
underscore, its nonempty first segment is the one-hot base; if that base is a
key of the input mapping, the cell is the indicator of input[base] being equal
to the feature name with every occurrence of base plus underscore removed
(str.replace removes all occurrences, not only the leading prefix), and a
value supplied directly under the full feature name is ignored. -/
theorem C10_first_underscore_precedence
    (input : List (String × PyV)) (feature : String)
    (h1 : strHasChar feature '_' = true)
    (h2 : firstSeg feature ≠ "") :
    (∀ v, lookupA input (firstSeg feature) = some v →
        reconstructCell input feature =
          PyV.num (if pyEqStr v (replaceAllStr (firstSeg feature ++ "_") "" feature)
                   then 1 else 0)) ∧
    (∀ w, (lookupA input (firstSeg feature)).isSome = true →
        reconstructCell ((feature, w) :: input) feature =
          reconstructCell input feature) := by
  constructor
  · intro v hv
    simp [reconstructCell, h1, h2, hv]
  · intro w hs
    have hne : feature ≠ firstSeg feature :=
      fun he => firstSeg_ne_self feature h1 he.symm
    have hlk : lookupA ((feature, w) :: input) (firstSeg feature)
        = lookupA input (firstSeg feature) := by
      simp [lookupA, hne]
    cases hv : lookupA input (firstSeg feature) with
    | none => rw [hv] at hs; simp at hs
    | some v => simp [reconstructCell, h1, h2, hlk, hv]

/-- Witness for C10_first_underscore_precedence at the claim's own example:
feature signal_strength with input keys signal and signal_strength. -/
theorem C10_first_underscore_precedence_witness :
    (strHasChar "signal_strength" '_' = true ∧ firstSeg "signal_strength" ≠ "" ∧
      (lookupA [("signal", PyV.str "strength")] (firstSeg "signal_strength")).isSome = true) ∧
    (∀ w, reconstructCell (("signal_strength", w) :: [("signal", PyV.str "strength")])
          "signal_strength"
        = reconstructCell [("signal", PyV.str "strength")] "signal_strength") :=
  ⟨⟨by decide, by decide, by decide⟩,
    fun w =>
      (C10_first_underscore_precedence [("signal", PyV.str "strength")] "signal_strength"
        (by decide) (by decide)).2 w (by decide)⟩

/-! ### Sorting lemmas for uniqueSorted -/

/-- The computable comparison coincides with the lexicographic order on
character lists. -/
theorem strLtB_iff : ∀ (l₁ l₂ : List Char), strLtB l₁ l₂ = true ↔ List.Lex (· < ·) l₁ l₂ := by
  intro l₁
  induction l₁ with
  | nil =>
    intro l₂
    cases l₂ with
    | nil =>
      simp only [strLtB]
      constructor
      · intro h; exact absurd h (by simp)
      · intro h; cases h
    | cons b bs =>
      simp only [strLtB]
      exact ⟨fun _ => List.Lex.nil, fun _ => trivial⟩
  | cons a as ih =>
    intro l₂
    cases l₂ with
    | nil =>
      simp only [strLtB]
      refine ⟨fun h => absurd h (by simp), fun h => ?_⟩
      cases h
    | cons b bs =>
      by_cases hab : a < b
      · simp only [strLtB, if_pos hab]
        exact ⟨fun _ => List.Lex.rel hab, fun _ => trivial⟩
      · by_cases hba : b < a
        · simp only [strLtB, if_neg hab, if_pos hba]
          constructor
          · intro h; exact absurd h (by simp)
          · intro h
            cases h with
            | rel h' => exact absurd h' hab
            | cons h' => exact absurd hba (lt_irrefl a)
        · have heq : a = b := le_antisymm (le_of_not_lt hba) (le_of_not_lt hab)
          subst heq
          simp only [strLtB, if_neg hab, if_neg hba]
          rw [ih bs]
          constructor
          · intro h; exact List.Lex.cons h
          · intro h
            cases h with
            | rel h' => exact absurd h' hab
            | cons h' => exact h'

/-- The computable string comparison coincides with the order on String. -/
theorem strLt_iff (x y : String) : strLt x y = true ↔ x < y := by
  rw [String.lt_iff_toList_lt]
  exact strLtB_iff x.data y.data

theorem strLt_eq_false (x y : String) : strLt x y = false ↔ ¬ x < y := by
  rw [← strLt_iff]
  cases h : strLt x y <;> simp

theorem mem_insSort (z x : String) (l : List String) :
    z ∈ insSort x l ↔ z = x ∨ z ∈ l := by
  induction l with
  | nil => simp [insSort]
  | cons y ys ih =>
    by_cases h1 : strLt x y = true
    · simp [insSort, h1]
    · rw [Bool.not_eq_true] at h1
      by_cases h2 : x = y
      · subst h2
        simp only [insSort, h1, Bool.false_eq_true, if_false, if_pos rfl]
        constructor
        · intro h; exact Or.inr h
        · intro h; rcases h with h | h
          · exact h ▸ List.mem_cons_self x ys
          · exact h
      · simp only [insSort, h1, Bool.false_eq_true, if_false, if_neg h2, List.mem_cons, ih]
        constructor
        · intro h
          rcases h with h | h | h
          · exact Or.inr (Or.inl h)
          · exact Or.inl h
          · exact Or.inr (Or.inr h)
        · intro h
          rcases h with h | h | h
          · exact Or.inr (Or.inl h)
          · exact Or.inl h
          · exact Or.inr (Or.inr h)

theorem sorted_insSort (x : String) (l : List String) (h : l.Sorted (· < ·)) :
    (insSort x l).Sorted (· < ·) := by
  induction l with
  | nil => simp [insSort]
  | cons y ys ih =>
    rw [List.sorted_cons] at h
    by_cases h1 : x < y
    · simp only [insSort, if_pos ((strLt_iff x y).mpr h1)]
      rw [List.sorted_cons]
      refine ⟨?_, ?_⟩
      · intro b hb
        rcases List.mem_cons.mp hb with hb | hb
        · exact hb ▸ h1
        · exact lt_trans h1 (h.1 b hb)
      · rw [List.sorted_cons]; exact h
    · have h1b : strLt x y = false := (strLt_eq_false x y).mpr h1
      by_cases h2 : x = y
      · simp only [insSort, h1b, Bool.false_eq_true, if_false, if_pos h2]
        rw [List.sorted_cons]; exact h
      · have hyx : y < x := lt_of_le_of_ne (not_lt.mp h1) (Ne.symm h2)
        simp only [insSort, h1b, Bool.false_eq_true, if_false, if_neg h2]
        rw [List.sorted_cons]
        refine ⟨?_, ih h.2⟩
        intro b hb
        rcases (mem_insSort b x ys).mp hb with hb | hb
        · exact hb ▸ hyx
        · exact h.1 b hb

theorem sorted_uniqueSorted (l : List String) : (uniqueSorted l).Sorted (· < ·) := by
  induction l with
  | nil => simp [uniqueSorted]
  | cons x xs ih => exact sorted_insSort x (uniqueSorted xs) ih

theorem mem_uniqueSorted (z : String) (l : List String) :
    z ∈ uniqueSorted l ↔ z ∈ l := by
  induction l with
  | nil => simp [uniqueSorted]
  | cons x xs ih =>
    show z ∈ insSort x (uniqueSorted xs) ↔ _
    rw [mem_insSort, ih]
    simp

theorem sorted_ext (l : List String) :
    ∀ m : List String, l.Sorted (· < ·) → m.Sorted (· < ·) →
      (∀ z, z ∈ l ↔ z ∈ m) → l = m := by
  induction l with
  | nil =>
    intro m _ _ h
    cases m with
    | nil => rfl
    | cons y ys => exact absurd ((h y).mpr (List.mem_cons_self y ys)) (by simp)
  | cons x xs ih =>
    intro m hl hm h
    cases m with
    | nil => exact absurd ((h x).mp (List.mem_cons_self x xs)) (by simp)
    | cons y ys =>
      rw [List.sorted_cons] at hl hm
      have hxy : x = y := by
        rcases List.mem_cons.mp ((h x).mp (List.mem_cons_self x xs)) with hx | hx
        · exact hx
        · rcases List.mem_cons.mp ((h y).mpr (List.mem_cons_self y ys)) with hy | hy
          · exact hy.symm
          · exact absurd (lt_trans (hm.1 x hx) (hl.1 y hy)) (lt_irrefl y)
      subst hxy
      have htails : ∀ z, z ∈ xs ↔ z ∈ ys := by
        intro z
        constructor
        · intro hz
          rcases List.mem_cons.mp ((h z).mp (List.mem_cons.mpr (Or.inr hz))) with h' | h'
          · exact absurd (h' ▸ hl.1 z hz) (lt_irrefl x)
          · exact h'
        · intro hz
          rcases List.mem_cons.mp ((h z).mpr (List.mem_cons.mpr (Or.inr hz))) with h' | h'
          · exact absurd (h' ▸ hm.1 z hz) (lt_irrefl x)
          · exact h'
      rw [ih ys hl.2 hm.2 htails]

/-- A list whose elements are exactly a and b, with a < b, has ascending
distinct-value list [a, b]. -/
theorem uniqueSorted_pair (a b : String) (l : List String) (hab : a < b)
    (hsub : ∀ x ∈ l, x = a ∨ x = b) (ha : a ∈ l) (hb : b ∈ l) :
    uniqueSorted l = [a, b] := by
  apply sorted_ext _ _ (sorted_uniqueSorted l)
  · rw [List.sorted_cons]
    refine ⟨?_, ?_⟩
    · intro z hz
      rw [List.mem_singleton] at hz
      exact hz ▸ hab
    · simp
  · intro z
    rw [mem_uniqueSorted]
    constructor
    · intro hz
      rcases hsub z hz with rfl | rfl <;> simp
    · intro hz
      rcases List.mem_cons.mp hz with rfl | hz
      · exact ha
      · rw [List.mem_singleton] at hz
        exact hz ▸ hb

/-- C10 counterexample: for feature a_b_a_c the remainder after the prefix
under-the-first-underscore base a is b_a_c (dropping the two characters of
the prefix), yet an input carrying exactly that value under key a produces
cell 0, because the code compares against the replace-all result b_c.  So the
claim's phrase, the cell is 1 iff the input value equals the remainder of the
name after the prefix, is false as stated. -/
theorem C10_counterexample :
    reconstructVector [("a", PyV.str "b_a_c")] ["a_b_a_c"] = [PyV.num 0] ∧
    ("a_b_a_c").data.drop 2 = ("b_a_c").data ∧
    reconstructVector [("a", PyV.str "b_a_c")] ["a_b_a_c"] ≠ [PyV.num 1] := by
  refine ⟨by decide, by decide, by decide⟩

/-! ### Invariants of the Preprocessor -/

theorem lookupCol_mem (df : Cols) (name : String) (c : Col)
    (h : lookupCol df name = some c) : (name, c) ∈ df := by
  induction df with
  | nil => simp [lookupCol] at h
  | cons p rest ih =>
    obtain ⟨n, c'⟩ := p
    by_cases hn : n = name
    · subst hn
      rw [lookupCol, if_pos rfl] at h
      injection h with h
      exact h ▸ List.mem_cons_self _ _
    · rw [lookupCol, if_neg hn] at h
      exact List.mem_cons_of_mem _ (ih h)

theorem mem_colNames_of_lookup (df : Cols) (name : String) (c : Col)
    (h : lookupCol df name = some c) : name ∈ colNames df :=
  List.mem_map.mpr ⟨(name, c), lookupCol_mem df name c h, rfl⟩

theorem lookup_of_mem_colNames (df : Cols) (name : String)
    (h : name ∈ colNames df) : ∃ c, lookupCol df name = some c := by
  induction df with
  | nil => simp [colNames] at h
  | cons p rest ih =>
    obtain ⟨n, c'⟩ := p
    by_cases hn : n = name
    · exact ⟨c', by rw [lookupCol, if_pos hn]⟩
    · have : name ∈ colNames rest := by
        rcases List.mem_cons.mp h with h' | h'
        · exact absurd h'.symm hn
        · exact h'
      obtain ⟨c, hc⟩ := ih this
      exact ⟨c, by rw [lookupCol, if_neg hn]; exact hc⟩

theorem mem_of_mem_removeCol (df : Cols) (f : String) (p : String × Col)
    (h : p ∈ removeCol df f) : p ∈ df := by
  induction df with
  | nil => simp [removeCol] at h
  | cons q rest ih =>
    obtain ⟨n, c⟩ := q
    by_cases hf : n = f
    · rw [removeCol, if_pos hf] at h
      exact List.mem_cons_of_mem _ (ih h)
    · rw [removeCol, if_neg hf] at h
      rcases List.mem_cons.mp h with h | h
      · exact h ▸ List.mem_cons_self _ _
      · exact List.mem_cons_of_mem _ (ih h)

theorem lookupCol_removeCol (df : Cols) (name f : String) (hne : name ≠ f) :
    lookupCol (removeCol df f) name = lookupCol df name := by
  induction df with
  | nil => rfl
  | cons p rest ih =>
    obtain ⟨n, c⟩ := p
    by_cases hf : n = f
    · subst hf
      have hnn : ¬ (n = name) := fun h => hne h.symm
      rw [removeCol, if_pos rfl, ih, lookupCol, if_neg hnn]
    · rw [removeCol, if_neg hf, lookupCol, lookupCol]
      by_cases hn : n = name
      · rw [if_pos hn, if_pos hn]
      · rw [if_neg hn, if_neg hn]
        exact ih

theorem lookupCol_append_left (A B : Cols) (name : String) (c : Col)
    (h : lookupCol A name = some c) : lookupCol (A ++ B) name = some c := by
  induction A with
  | nil => simp [lookupCol] at h
  | cons p rest ih =>
    obtain ⟨n, c'⟩ := p
    by_cases hn : n = name
    · rw [lookupCol, if_pos hn] at h
      rw [List.cons_append, lookupCol, if_pos hn]
      exact h
    · rw [lookupCol, if_neg hn] at h
      rw [List.cons_append, lookupCol, if_neg hn]
      exact ih h

theorem fillCol_len (c : Col) : colLen (fillCol c) = colLen c := by
  cases c with
  | num vals =>
    cases hm : meanQ vals with
    | none => simp [fillCol, hm]
    | some m => simp [fillCol, hm, colLen]
  | obj vals => simp [fillCol, colLen]

theorem fillCol_isNumeric (c : Col) : (fillCol c).isNumeric = c.isNumeric := by
  cases c with
  | num vals =>
    cases hm : meanQ vals with
    | none => simp [fillCol, hm]
    | some m => simp [fillCol, hm, Col.isNumeric]
  | obj vals => simp [fillCol, Col.isNumeric]

theorem fillDF_cons (p : String × Col) (rest : Cols) (fcols : List String) :
    fillDF (p :: rest) fcols
      = (if p.1 ∈ fcols then (p.1, fillCol p.2) else p) :: fillDF rest fcols := rfl

theorem fillDF_lookup (df : Cols) (fcols : List String) (name : String) :
    lookupCol (fillDF df fcols) name
      = (lookupCol df name).map (fun c => if name ∈ fcols then fillCol c else c) := by
  induction df with
  | nil => rfl
  | cons p rest ih =>
    obtain ⟨n, c⟩ := p
    rw [fillDF_cons]
    by_cases hin : n ∈ fcols
    · rw [if_pos hin]
      by_cases hn : n = name
      · subst hn
        rw [lookupCol, if_pos rfl, lookupCol, if_pos rfl]
        simp [hin]
      · rw [lookupCol, if_neg hn, lookupCol, if_neg hn]
        exact ih
    · rw [if_neg hin]
      by_cases hn : n = name
      · subst hn
        rw [lookupCol, if_pos rfl, lookupCol, if_pos rfl]
        simp [hin]
      · rw [lookupCol, if_neg hn, lookupCol, if_neg hn]
        exact ih

theorem fillDF_len (df : Cols) (fcols : List String) (n : Nat)
    (h : ∀ p ∈ df, colLen p.2 = n) :
    ∀ p ∈ fillDF df fcols, colLen p.2 = n := by
  intro p hp
  rw [fillDF, List.mem_map] at hp
  obtain ⟨q, hq, hpq⟩ := hp
  by_cases hin : q.1 ∈ fcols
  · rw [if_pos hin] at hpq
    rw [← hpq]
    simpa [fillCol_len] using h q hq
  · rw [if_neg hin] at hpq
    exact hpq ▸ h q hq

theorem expandStep_len (d : Cols) (cats : List String) (f : String) (n : Nat)
    (h : ∀ p ∈ d, colLen p.2 = n) :
    ∀ p ∈ (expandStep (d, cats) f).1, colLen p.2 = n := by
  intro p hp
  cases hf : lookupCol d f with
  | none => rw [expandStep] at hp; rw [hf] at hp; exact h p hp
  | some c =>
    cases c with
    | num vals => rw [expandStep] at hp; rw [hf] at hp; exact h p hp
    | obj vals =>
      rw [expandStep] at hp
      rw [hf] at hp
      simp only [getDummiesOne, List.mem_append] at hp
      rcases hp with hp | hp
      · exact h p (mem_of_mem_removeCol d f p hp)
      · rw [dummyCols, List.mem_map] at hp
        obtain ⟨v, _, hv⟩ := hp
        have hvals : colLen (Col.obj vals) = n := h (f, Col.obj vals) (lookupCol_mem d f _ hf)
        rw [← hv]
        simpa [colLen] using hvals

theorem expandFold_len (fs : List String) :
    ∀ (d : Cols) (cats : List String) (n : Nat), (∀ p ∈ d, colLen p.2 = n) →
      ∀ p ∈ (fs.foldl expandStep (d, cats)).1, colLen p.2 = n := by
  induction fs with
  | nil => intro d cats n h p hp; exact h p hp
  | cons f fs ih =>
    intro d cats n h p hp
    rw [List.foldl_cons] at hp
    have hstep := expandStep_len d cats f n h
    cases he : expandStep (d, cats) f with
    | mk d' cats' =>
      rw [he] at hp
      rw [he] at hstep
      exact ih d' cats' n hstep p hp

theorem expandStep_lookup (d : Cols) (cats : List String) (f name : String) (c : Col)
    (h : lookupCol d name = some c)
    (hkeep : f ≠ name ∨ Col.isNumeric c = true) :
    lookupCol (expandStep (d, cats) f).1 name = some c := by
  cases hf : lookupCol d f with
  | none => rw [expandStep, hf]; exact h
  | some c' =>
    cases c' with
    | num vals => rw [expandStep, hf]; exact h
    | obj vals =>
      rw [expandStep, hf]
      have hne : name ≠ f := by
        rcases hkeep with hk | hk
        · exact fun he => hk he.symm
        · intro he
          rw [he, hf] at h
          injection h with h
          rw [← h] at hk
          simp [Col.isNumeric] at hk
      show lookupCol (getDummiesOne d f vals) name = some c
      rw [getDummiesOne]
      apply lookupCol_append_left
      rw [lookupCol_removeCol d name f hne]
      exact h

theorem expandFold_lookup (fs : List String) :
    ∀ (d : Cols) (cats : List String) (name : String) (c : Col),
      lookupCol d name = some c →
      ((∀ f ∈ fs, f ≠ name) ∨ Col.isNumeric c = true) →
      lookupCol (fs.foldl expandStep (d, cats)).1 name = some c := by
  induction fs with
  | nil => intro d cats name c h _; exact h
  | cons f fs ih =>
    intro d cats name c h hkeep
    rw [List.foldl_cons]
    have hk1 : f ≠ name ∨ Col.isNumeric c = true := by
      rcases hkeep with hk | hk
      · exact Or.inl (hk f (List.mem_cons_self f fs))
      · exact Or.inr hk
    have hstep := expandStep_lookup d cats f name c h hk1
    have hk2 : (∀ g ∈ fs, g ≠ name) ∨ Col.isNumeric c = true := by
      rcases hkeep with hk | hk
      · exact Or.inl fun g hg => hk g (List.mem_cons_of_mem f hg)
      · exact Or.inr hk
    cases he : expandStep (d, cats) f with
    | mk d' cats' =>
      rw [he] at hstep
      exact ih d' cats' name c hstep hk2

theorem newFeatures_subset (df : Cols) (features catFeats : List String) :
    ∀ g ∈ newFeatures df features catFeats, g ∈ colNames df := by
  intro g hg
  rw [newFeatures, List.mem_flatMap] at hg
  obtain ⟨f, hf, hgf⟩ := hg
  by_cases h1 : f ∈ catFeats
  · rw [if_pos h1] at hgf
    exact List.mem_of_mem_filter hgf
  · rw [if_neg h1] at hgf
    by_cases h2 : f ∈ colNames df
    · rw [if_pos h2, List.mem_singleton] at hgf
      exact hgf ▸ h2
    · rw [if_neg h2] at hgf
      simp at hgf

/-- C9 claim theorem (amended): preprocessing drops no rows (every column of
the cleaned table still has the original row count), keeps the target column
and every rebuilt feature column, and also RETAINS every column that is not an
expanded categorical feature — it does not restrict the table to
target + expanded features. -/
theorem C9_preprocess_shape (df : Cols) (features : List String) (target : String)
    (n : Nat)
    (hrect : ∀ p ∈ df, colLen p.2 = n)
    (htf : target ∉ features) :
    (∀ p ∈ (preprocess_data df features target).1, colLen p.2 = n) ∧
    (target ∈ colNames df → target ∈ colNames (preprocess_data df features target).1) ∧
    (∀ g ∈ (preprocess_data df features target).2,
        g ∈ colNames (preprocess_data df features target).1) ∧
    (∀ name, name ∈ colNames df → name ∉ features →
        name ∈ colNames (preprocess_data df features target).1) ∧
    (∀ name c, lookupCol df name = some c → Col.isNumeric c = true →
        name ∈ colNames (preprocess_data df features target).1) := by
  have hfill : ∀ p ∈ fillDF df (features ++ [target]), colLen p.2 = n :=
    fillDF_len df (features ++ [target]) n hrect
  have hmain1 : ∀ p ∈ (preprocess_data df features target).1, colLen p.2 = n := by
    intro p hp
    rw [preprocess_data] at hp
    exact expandFold_len features (fillDF df (features ++ [target])) [] n hfill p hp
  have hkeepName : ∀ name, (name ∉ features ∨
      (∃ c, lookupCol df name = some c ∧ Col.isNumeric c = true)) →
      name ∈ colNames df → name ∈ colNames (preprocess_data df features target).1 := by
    intro name hcase hmem
    obtain ⟨c, hc⟩ := lookup_of_mem_colNames df name hmem
    have hfl0 := fillDF_lookup df (features ++ [target]) name
    rw [hc] at hfl0
    have hfl : lookupCol (fillDF df (features ++ [target])) name
        = some (if name ∈ features ++ [target] then fillCol c else c) := by
      rw [hfl0]; rfl
    rcases hcase with hni | ⟨c', hc', hnum⟩
    · have hkeep : (∀ f ∈ features, f ≠ name) ∨
          Col.isNumeric (if name ∈ features ++ [target] then fillCol c else c) = true :=
        Or.inl fun f hf he => hni (he ▸ hf)
      have := expandFold_lookup features (fillDF df (features ++ [target])) []
        name _ hfl hkeep
      rw [preprocess_data]
      exact mem_colNames_of_lookup _ name _ this
    · have hcc : c' = c := by
        rw [hc] at hc'
        injection hc' with h
        exact h.symm
      rw [hcc] at hnum
      have hnum2 : Col.isNumeric (if name ∈ features ++ [target] then fillCol c else c)
          = true := by
        by_cases hin : name ∈ features ++ [target]
        · rw [if_pos hin, fillCol_isNumeric]; exact hnum
        · rw [if_neg hin]; exact hnum
      have := expandFold_lookup features (fillDF df (features ++ [target])) []
        name _ hfl (Or.inr hnum2)
      rw [preprocess_data]
      exact mem_colNames_of_lookup _ name _ this
  refine ⟨hmain1, ?_, ?_, ?_, ?_⟩
  · intro hmem
    exact hkeepName target (Or.inl htf) hmem
  · intro g hg
    rw [preprocess_data] at hg ⊢
    exact newFeatures_subset _ features _ g hg
  · intro name hmem hni
    exact hkeepName name (Or.inl hni) hmem
  · intro name c hc hnum
    exact hkeepName name (Or.inr ⟨c, hc, hnum⟩) (mem_colNames_of_lookup df name c hc)

/-! ### One-hot round trip (preprocessing then Predictor reconstruction) -/

theorem filterMap_id_map_some {α : Type} (l : List α) :
    (l.map some).filterMap id = l := by
  induction l with
  | nil => rfl
  | cons x xs ih => simp [List.filterMap_cons, ih]

theorem fillCol_obj_allsome (l : List String) :
    fillCol (Col.obj (l.map some)) = Col.obj (l.map some) := by
  simp only [fillCol]
  rw [List.map_map]
  rfl

theorem fillCol_num_allsome (l : List ℚ) :
    fillCol (Col.num (l.map some)) = Col.num (l.map some) := by
  simp only [fillCol]
  cases hm : meanQ (l.map some) with
  | none => rfl
  | some m =>
    show Col.num ((List.map some l).map fun o =>
        match o with | some v => some v | none => some m) = Col.num (List.map some l)
    rw [List.map_map]
    rfl

theorem strStartsWith_append (x y : String) : strStartsWith (x ++ y) x = true := by
  show (x.data.isPrefixOf (x ++ y).data) = true
  rw [str_data_append]
  exact isPrefixOf_append_self x.data y.data

/-- One reconstruction cell over a one-hot column name f_v built from an
underscore-free feature name f, on the input mapping f ↦ w: the cell is the
indicator of w = v. -/
theorem reconstructCell_onehot (f v w : String)
    (hfu : strHasChar f '_' = false) (hfe : f ≠ "")
    (hov : occursStr (f ++ "_") v = false) :
    reconstructCell [(f, PyV.str w)] (f ++ "_" ++ v)
      = PyV.num (if w = v then 1 else 0) := by
  have h1 : strHasChar (f ++ "_" ++ v) '_' = true := strHasChar_append_mid f v
  have h2 : firstSeg (f ++ "_" ++ v) = f := firstSeg_append f v hfu
  have h3 : replaceAllStr (f ++ "_") "" (f ++ "_" ++ v) = v := replaceAllStr_append f v hov
  unfold reconstructCell
  rw [h1]
  simp only [if_true, h2]
  rw [if_pos hfe]
  rw [lookupA, if_pos rfl]
  simp only [h3, pyEqStr]
  by_cases hw : w = v
  · simp [hw]
  · simp [hw]

/-- C1 claim theorem (amended): the one-hot round trip holds for a categorical
feature f whose name contains NO underscore (and whose values do not contain
f_ as a substring): preprocessing a table whose f column has observed values
a and b (a before b in code-point order) stores the expanded columns f_a, f_b
in that order, reconstruction of an input with f = a yields [1, 0] over them,
and an unseen value u yields [0, 0].  The restriction to underscore-free
feature names is forced by the counterexample C1_counterexample. -/
theorem C1_onehot_roundtrip (f target a b u : String) (rows : List String)
    (tvals : List ℚ)
    (hfu : strHasChar f '_' = false) (hfe : f ≠ "")
    (hab : strLt a b = true)
    (hsub : ∀ x ∈ rows, x = a ∨ x = b) (ha : a ∈ rows) (hb : b ∈ rows)
    (htf : target ≠ f)
    (hts : strStartsWith target (f ++ "_") = false)
    (hoa : occursStr (f ++ "_") a = false)
    (hob : occursStr (f ++ "_") b = false)
    (hua : u ≠ a) (hub : u ≠ b) :
    (preprocess_data [(f, Col.obj (rows.map some)), (target, Col.num (tvals.map some))]
        [f] target).2 = [f ++ "_" ++ a, f ++ "_" ++ b] ∧
    reconstructVector [(f, PyV.str a)] [f ++ "_" ++ a, f ++ "_" ++ b]
      = [PyV.num 1, PyV.num 0] ∧
    reconstructVector [(f, PyV.str u)] [f ++ "_" ++ a, f ++ "_" ++ b]
      = [PyV.num 0, PyV.num 0] := by
  have hab' : a < b := (strLt_iff a b).mp hab
  have hane : a ≠ b := ne_of_lt hab'
  have hus : uniqueSorted ((rows.map some).filterMap id) = [a, b] := by
    rw [filterMap_id_map_some]
    exact uniqueSorted_pair a b rows hab' hsub ha hb
  constructor
  · -- the stored expanded feature list
    set colF := Col.obj (rows.map some) with hcolF
    set colT := Col.num (tvals.map some) with hcolT
    have hfill : fillDF [(f, colF), (target, colT)] ([f] ++ [target])
        = [(f, colF), (target, colT)] := by
      show (if f ∈ [f] ++ [target] then (f, fillCol colF) else (f, colF)) ::
            (if target ∈ [f] ++ [target] then (target, fillCol colT) else (target, colT)) ::
            ([] : Cols)
          = [(f, colF), (target, colT)]
      rw [if_pos (by simp), if_pos (by simp), hcolF, hcolT,
        fillCol_obj_allsome, fillCol_num_allsome]
    have hlk : lookupCol [(f, colF), (target, colT)] f = some colF := by
      rw [lookupCol, if_pos rfl]
    have hrm : removeCol [(f, colF), (target, colT)] f = [(target, colT)] := by
      rw [removeCol, if_pos rfl, removeCol, if_neg htf, removeCol]
    have hdum : dummyCols f (rows.map some) =
        [(f ++ "_" ++ a, Col.num ((rows.map some).map
            fun cell => if cell = some a then some 1 else some 0)),
         (f ++ "_" ++ b, Col.num ((rows.map some).map
            fun cell => if cell = some b then some 1 else some 0))] := by
      unfold dummyCols
      rw [hus]
      rfl
    have hexp : expandAll [(f, colF), (target, colT)] [f]
        = ([(target, colT)] ++ dummyCols f (rows.map some), [f]) := by
      unfold expandAll
      rw [List.foldl_cons, List.foldl_nil]
      unfold expandStep
      rw [hlk]
      show (getDummiesOne [(f, colF), (target, colT)] f (rows.map some), [] ++ [f])
          = ([(target, colT)] ++ dummyCols f (rows.map some), [f])
      unfold getDummiesOne
      rw [hrm]
      rfl
    show (newFeatures
        (expandAll (fillDF [(f, colF), (target, colT)] ([f] ++ [target])) [f]).1 [f]
        (expandAll (fillDF [(f, colF), (target, colT)] ([f] ++ [target])) [f]).2)
      = [f ++ "_" ++ a, f ++ "_" ++ b]
    rw [hfill, hexp, hdum]
    unfold newFeatures
    rw [List.flatMap_cons, List.flatMap_nil]
    rw [if_pos (List.mem_singleton.mpr rfl)]
    show ([target, f ++ "_" ++ a, f ++ "_" ++ b].filter
        fun c => strStartsWith c (f ++ "_")) ++ [] = [f ++ "_" ++ a, f ++ "_" ++ b]
    rw [List.filter_cons_of_neg (by rw [hts]; exact Bool.false_ne_true)]
    simp only [List.filter_cons, List.filter_nil]
    rw [strStartsWith_append (f ++ "_") a, strStartsWith_append (f ++ "_") b]
    simp
  constructor
  · show [reconstructCell [(f, PyV.str a)] (f ++ "_" ++ a),
          reconstructCell [(f, PyV.str a)] (f ++ "_" ++ b)] = _
    rw [reconstructCell_onehot f a a hfu hfe hoa,
        reconstructCell_onehot f b a hfu hfe hob]
    rw [if_pos rfl, if_neg hane]
  · show [reconstructCell [(f, PyV.str u)] (f ++ "_" ++ a),
          reconstructCell [(f, PyV.str u)] (f ++ "_" ++ b)] = _
    rw [reconstructCell_onehot f a u hfu hfe hoa,
        reconstructCell_onehot f b u hfu hfe hob]
    rw [if_neg hua, if_neg hub]

/-- Witness for C1_onehot_roundtrip on a concrete network-type table. -/
theorem C1_onehot_roundtrip_witness :
    (strHasChar "net" '_' = false ∧ ("net" : String) ≠ "" ∧ strLt "4G" "5G" = true ∧
      (∀ x ∈ ["4G", "5G"], x = "4G" ∨ x = "5G") ∧
      ("t" : String) ≠ "net" ∧ occursStr ("net" ++ "_") "4G" = false) ∧
    ((preprocess_data
        [("net", Col.obj (["4G", "5G"].map some)), ("t", Col.num ([1, 2].map some))]
        ["net"] "t").2 = ["net" ++ "_" ++ "4G", "net" ++ "_" ++ "5G"] ∧
      reconstructVector [("net", PyV.str "4G")]
        ["net" ++ "_" ++ "4G", "net" ++ "_" ++ "5G"] = [PyV.num 1, PyV.num 0] ∧
      reconstructVector [("net", PyV.str "6G")]
        ["net" ++ "_" ++ "4G", "net" ++ "_" ++ "5G"] = [PyV.num 0, PyV.num 0]) :=
  ⟨⟨by decide, by decide, by decide, by decide, by decide, by decide⟩,
    C1_onehot_roundtrip "net" "t" "4G" "5G" "6G" ["4G", "5G"] [1, 2]
      (by decide) (by decide) (by decide) (by decide) (by decide) (by decide)
      (by decide) (by decide) (by decide) (by decide) (by decide) (by decide)⟩

/-- C1 counterexample: for the categorical feature net_type — a name that
itself contains an underscore — with observed values 4G and 5G, preprocessing
stores the columns net_type_4G and net_type_5G, but reconstructing an input
with net_type = 4G yields [0, 0], not the one-hot [1, 0] the claim demands:
the Predictor splits at the FIRST underscore, looks for the key net, finds
nothing, and defaults both cells to zero. -/
theorem C1_counterexample :
    (preprocess_data dfC1 ["net_type"] "t").2 = ["net_type_4G", "net_type_5G"] ∧
    reconstructVector [("net_type", PyV.str "4G")]
        (preprocess_data dfC1 ["net_type"] "t").2 = [PyV.num 0, PyV.num 0] ∧
    reconstructVector [("net_type", PyV.str "4G")]
        (preprocess_data dfC1 ["net_type"] "t").2 ≠ [PyV.num 1, PyV.num 0] := by
  refine ⟨by decide, by decide, by decide⟩

/-- Witness for C9_preprocess_shape at the concrete table dfC9. -/
theorem C9_preprocess_shape_witness :
    ((∀ p ∈ dfC9, colLen p.2 = 2) ∧ "target" ∉ ["kind"]) ∧
    ("target" ∈ colNames dfC9 →
      "target" ∈ colNames (preprocess_data dfC9 ["kind"] "target").1) :=
  ⟨⟨by decide, by decide⟩,
    (C9_preprocess_shape dfC9 ["kind"] "target" 2 (by decide) (by decide)).2.1⟩

/-- C9 counterexample: on the raw table dfC9 with feature list [kind] and
target column target, the cleaned table keeps the extra non-feature column
extra, which is neither the target nor an expanded feature column — so the
cleaned table does not consist of exactly the target plus the expanded
feature columns. -/
theorem C9_counterexample :
    colNames (preprocess_data dfC9 ["kind"] "target").1
      = ["target", "extra", "kind_a", "kind_b"] ∧
    (preprocess_data dfC9 ["kind"] "target").2 = ["kind_a", "kind_b"] ∧
    "extra" ∈ colNames (preprocess_data dfC9 ["kind"] "target").1 ∧
    "extra" ≠ "target" ∧
    "extra" ∉ (preprocess_data dfC9 ["kind"] "target").2 := by
  refine ⟨by decide, by decide, by decide, by decide, by decide⟩

/-! ### Trainer, Model Registry and Predictor theorems -/

theorem updateReg_idem (r : Registry) (k : String) (b : Option Bundle) :
    updateReg (updateReg r k b) k b = updateReg r k b := by
  funext x
  unfold updateReg
  by_cases h : x = k <;> simp [h]

theorem listMax_mem (x : ℚ) (l : List ℚ) : listMax x l ∈ x :: l := by
  unfold listMax
  induction l generalizing x with
  | nil => simp
  | cons y ys ih =>
    rw [List.foldl_cons]
    have hmem := ih (max x y)
    rcases List.mem_cons.mp hmem with h | h
    · rcases max_choice x y with h' | h'
      · rw [h, h']
        exact List.mem_cons_self _ _
      · rw [h, h']
        exact List.mem_cons_of_mem _ (List.mem_cons_self _ _)
    · exact List.mem_cons_of_mem _ (List.mem_cons_of_mem _ h)

theorem listMax_ge (x : ℚ) (l : List ℚ) : ∀ q ∈ x :: l, q ≤ listMax x l := by
  unfold listMax
  induction l generalizing x with
  | nil =>
    intro q hq
    rw [List.mem_singleton] at hq
    simp [hq]
  | cons y ys ih =>
    intro q hq
    rw [List.foldl_cons]
    have hx : max x y ≤ List.foldl max (max x y) ys :=
      ih (max x y) (max x y) (List.mem_cons_self _ _)
    rcases List.mem_cons.mp hq with rfl | hq'
    · exact le_trans (le_max_left q y) hx
    · rcases List.mem_cons.mp hq' with rfl | hq''
      · exact le_trans (le_max_right x q) hx
      · exact ih (max x y) q (List.mem_cons_of_mem _ hq'')

/-- C4 claim theorem: train_model fails with the no-features error when the
expanded feature set is empty, with the missing-target error when the target
column is absent (and some features exist — the empty-features check fires
first), and in either degenerate case it returns an error result and leaves
the model registry untouched. -/
theorem C4_trainer_degenerate (oracle : MLOracle) (models : Registry) (df : Cols)
    (dt target : String) (new_features : List String) :
    (new_features = [] →
      train_model oracle models df dt target new_features
        = (TrainOut.err "No features available for training.", models)) ∧
    (new_features ≠ [] → target ∉ colNames df →
      train_model oracle models df dt target new_features
        = (TrainOut.err ("Target column \x27" ++ target ++ "\x27 not found."), models)) ∧
    ((new_features = [] ∨ target ∉ colNames df) →
      (∃ msg, (train_model oracle models df dt target new_features).1 = TrainOut.err msg) ∧
      (train_model oracle models df dt target new_features).2 = models) := by
  have case1 : new_features = [] →
      train_model oracle models df dt target new_features
        = (TrainOut.err "No features available for training.", models) := by
    intro h
    subst h
    simp [train_model]
  have case2 : new_features ≠ [] → target ∉ colNames df →
      train_model oracle models df dt target new_features
        = (TrainOut.err ("Target column \x27" ++ target ++ "\x27 not found."), models) := by
    intro h1 h2
    have he : new_features.isEmpty = false := by
      cases new_features with
      | nil => exact absurd rfl h1
      | cons a l => rfl
    simp [train_model, he, h2]
  refine ⟨case1, case2, ?_⟩
  intro h
  by_cases hnf : new_features = []
  · rw [case1 hnf]
    exact ⟨⟨_, rfl⟩, rfl⟩
  · rcases h with h | h
    · exact absurd h hnf
    · rw [case2 hnf h]
      exact ⟨⟨_, rfl⟩, rfl⟩

/-- Witness for C4_trainer_degenerate: an empty expanded feature set. -/
theorem C4_trainer_degenerate_witness :
    (([] : List String) = []) ∧
    (train_model oracleTriv regEmpty dfC9 "network" "t" []
      = (TrainOut.err "No features available for training.", regEmpty)) :=
  ⟨rfl, (C4_trainer_degenerate oracleTriv regEmpty dfC9 "network" "t" []).1 rfl⟩

/-- C5 claim theorem: on non-degenerate input, train_model succeeds,
registers a bundle for the dataset type whose recorded task kind is
regression exactly when the target name is one of the bounded-score names
(avg_sentiment, reliability_score); the regression branch fits the
gradient-boosted regressor family and reports metrics mse and r2, the
classification branch fits the random-forest classifier family (the one
carrying predict_proba) and reports accuracy and weighted f1 (computed with
zero_division fixed to 0 in the embedding, as in the call site). -/
theorem C5_taskkind (oracle : MLOracle) (models : Registry) (df : Cols)
    (dt target : String) (new_features : List String)
    (h1 : new_features ≠ []) (h2 : target ∈ colNames df) :
    ∃ info bundle,
      (train_model oracle models df dt target new_features).1 = TrainOut.ok info ∧
      (train_model oracle models df dt target new_features).2
        = updateReg models dt (some bundle) ∧
      bundle.info = info ∧
      bundle.features = new_features ∧
      (info.type = "regression" ↔ targetIsRegression target = true) ∧
      (targetIsRegression target = true →
        (∃ pf, bundle.model = MLModel.regressor pf) ∧
        info.metrics.map Prod.fst = ["mse", "r2"]) ∧
      (targetIsRegression target = false →
        (∃ pf prf, bundle.model = MLModel.classifier pf prf) ∧
        info.metrics.map Prod.fst = ["accuracy", "f1"]) := by
  have he : new_features.isEmpty = false := by
    cases new_features with
    | nil => exact absurd rfl h1
    | cons a l => rfl
  have hnn : ¬ target ∉ colNames df := fun hn => hn h2
  unfold train_model
  rw [he]
  simp only [Bool.false_eq_true, if_false]
  rw [if_neg hnn]
  cases hr : targetIsRegression target
  · simp only [Bool.false_eq_true, if_false]
    refine ⟨_, _, rfl, rfl, rfl, rfl, ?_, ?_, ?_⟩
    · constructor
      · intro h
        have hne : ("classification" : String) ≠ "regression" := by decide
        exact absurd h hne
      · intro h
        simp at h
    · intro h
      simp at h
    · intro _
      exact ⟨⟨_, _, rfl⟩, rfl⟩
  · rw [if_pos rfl]
    refine ⟨_, _, rfl, rfl, rfl, rfl, ?_, ?_, ?_⟩
    · simp
    · intro _
      exact ⟨⟨_, rfl⟩, rfl⟩
    · intro h
      simp at h

/-- Witness for C5_taskkind: a classification run on target with a
non-bounded-score name. -/
theorem C5_taskkind_witness :
    ((["extra"] : List String) ≠ [] ∧ "target" ∈ colNames dfC9) ∧
    (∃ info bundle,
      (train_model oracleTriv regEmpty dfC9 "network" "target" ["extra"]).1
        = TrainOut.ok info ∧
      (train_model oracleTriv regEmpty dfC9 "network" "target" ["extra"]).2
        = updateReg regEmpty "network" (some bundle) ∧
      bundle.info = info ∧
      bundle.features = ["extra"] ∧
      (info.type = "regression" ↔ targetIsRegression "target" = true) ∧
      (targetIsRegression "target" = true →
        (∃ pf, bundle.model = MLModel.regressor pf) ∧
        info.metrics.map Prod.fst = ["mse", "r2"]) ∧
      (targetIsRegression "target" = false →
        (∃ pf prf, bundle.model = MLModel.classifier pf prf) ∧
        info.metrics.map Prod.fst = ["accuracy", "f1"])) :=
  ⟨⟨by decide, by decide⟩,
    C5_taskkind oracleTriv regEmpty dfC9 "network" "target" ["extra"]
      (by decide) (by decide)⟩

/-- C6 claim theorem: load_model returns unavailable unless the model, scaler
and metadata artifacts all exist; when all three exist and deserialize it
reconstructs the bundle from them and registers it under the dataset type; on
any failure it performs no registry mutation, and re-running a load is
idempotent, so loading may be retried freely. -/
theorem C6_load_requires_all (fs : FS) (models : Registry) (dt : String) :
    (((fs.modelFile (modelPath dt)).isSome = false ∨
      (fs.scalerFile (scalerPath dt)).isSome = false ∨
      (fs.metaFile (metadataPath dt)).isSome = false) →
      load_model fs models dt = (false, models)) ∧
    (∀ m sc md, fs.modelFile (modelPath dt) = some (some m) →
      fs.scalerFile (scalerPath dt) = some (some sc) →
      fs.metaFile (metadataPath dt) = some (some md) →
      load_model fs models dt = (true, updateReg models dt (some
        { model := m, features := md.features,
          info := { type := md.info.type, metrics := md.info.metrics,
                    feature_importance := md.info.feature_importance,
                    scaler := sc } }))) ∧
    ((load_model fs models dt).1 = false → (load_model fs models dt).2 = models) ∧
    (load_model fs (load_model fs models dt).2 dt = load_model fs models dt) := by
  refine ⟨?_, ?_, ?_, ?_⟩
  · intro h
    rcases h with h | h | h <;> simp [load_model, h]
  · intro m sc md ha hb hc
    simp [load_model, ha, hb, hc]
  · intro h1
    rcases ha : fs.modelFile (modelPath dt) with _ | (_ | m) <;>
      rcases hb : fs.scalerFile (scalerPath dt) with _ | (_ | sc) <;>
        rcases hc : fs.metaFile (metadataPath dt) with _ | (_ | md) <;>
          simp [load_model, ha, hb, hc] at h1 ⊢
  · rcases ha : fs.modelFile (modelPath dt) with _ | (_ | m) <;>
      rcases hb : fs.scalerFile (scalerPath dt) with _ | (_ | sc) <;>
        rcases hc : fs.metaFile (metadataPath dt) with _ | (_ | md) <;>
          simp [load_model, ha, hb, hc, updateReg_idem]

/-- Witness for C6_load_requires_all: a store holding all three artifacts for
network, and the empty store, exercising the success branch and the
missing-artifact branch. -/
theorem C6_load_requires_all_witness :
    (fsC6.modelFile (modelPath "network") = some (some mC6) ∧
      fsC6.scalerFile (scalerPath "network") = some (some scC6) ∧
      fsC6.metaFile (metadataPath "network") = some (some mdC6)) ∧
    load_model fsC6 regEmpty "network" = (true, updateReg regEmpty "network" (some
      { model := mC6, features := mdC6.features,
        info := { type := mdC6.info.type, metrics := mdC6.info.metrics,
                  feature_importance := mdC6.info.feature_importance,
                  scaler := scC6 } })) ∧
    load_model fsEmpty regEmpty "network" = (false, regEmpty) :=
  ⟨⟨rfl, rfl, rfl⟩,
    (C6_load_requires_all fsC6 regEmpty "network").2.1 mC6 scC6 mdC6 rfl rfl rfl,
    (C6_load_requires_all fsEmpty regEmpty "network").1 (Or.inl rfl)⟩

/-- C7 claim theorem: when predict succeeds on a registered bundle, the
confidence field is present exactly when the model exposes class-probability
output (the classifier family); a regression model yields no confidence; and
for a classifier the confidence equals the maximum class probability (an
upper bound of the returned probabilities that is itself one of them), hence
lies in [0, 1] whenever the class probabilities do. -/
theorem C7_confidence (fs : FS) (models : Registry) (dt : String)
    (input : List (String × PyV)) (bundle : Bundle) (r : PredResult) (reg2 : Registry)
    (hm : models dt = some bundle)
    (hp : predict fs models dt input = (Except.ok r, reg2)) :
    (r.confidence.isSome = true ↔ ∃ pf prf, bundle.model = MLModel.classifier pf prf) ∧
    (∀ pf, bundle.model = MLModel.regressor pf → r.confidence = none) ∧
    (∀ pf prf, bundle.model = MLModel.classifier pf prf →
      ∀ xs, toNums (reconstructVector input bundle.features) = some xs →
        ∃ p ps, prf (bundle.info.scaler xs) = p :: ps ∧
          r.confidence = some (listMax p ps) ∧
          listMax p ps ∈ p :: ps ∧
          (∀ q ∈ p :: ps, q ≤ listMax p ps) ∧
          ((∀ q ∈ p :: ps, 0 ≤ q ∧ q ≤ 1) →
            0 ≤ listMax p ps ∧ listMax p ps ≤ 1)) := by
  have hcore : predictCore bundle input = Except.ok r := by
    unfold predict at hp
    rw [hm] at hp
    simp only [Option.isSome_some, if_true] at hp
    rw [hm] at hp
    exact congrArg Prod.fst hp
  unfold predictCore at hcore
  cases ht : toNums (reconstructVector input bundle.features) with
  | none =>
    rw [ht] at hcore
    exact absurd hcore (by simp)
  | some xs =>
    rw [ht] at hcore
    cases hbm : bundle.model with
    | regressor f =>
      rw [hbm] at hcore
      simp only [Except.ok.injEq] at hcore
      have hconf : r.confidence = none := by rw [← hcore]
      refine ⟨?_, ?_, ?_⟩
      · rw [hconf]
        simp only [Option.isSome_none, Bool.false_eq_true, false_iff]
        rintro ⟨pf, prf, hcl⟩
        exact MLModel.noConfusion hcl
      · intro _ _
        exact hconf
      · intro pf prf hcl
        exact absurd hcl (fun h => MLModel.noConfusion h)
    | classifier f prf0 =>
      rw [hbm] at hcore
      dsimp only [] at hcore
      cases hpr : prf0 (bundle.info.scaler xs) with
      | nil =>
        rw [hpr] at hcore
        exact absurd hcore (by simp)
      | cons p ps =>
        rw [hpr] at hcore
        simp only [Except.ok.injEq] at hcore
        have hconf : r.confidence = some (listMax p ps) := by rw [← hcore]
        refine ⟨?_, ?_, ?_⟩
        · rw [hconf]
          simp only [Option.isSome_some, true_iff]
          exact ⟨f, prf0, rfl⟩
        · intro pf hreg
          exact absurd hreg (fun h => MLModel.noConfusion h)
        · intro pf prf hcl xs' hxs'
          have hx : xs' = xs := by
            injection hxs' with h
            exact h.symm
          subst hx
          have hprf : prf = prf0 := by
            injection hcl with h1 h2
            exact h2.symm
          subst hprf
          exact ⟨p, ps, hpr, hconf, listMax_mem p ps, listMax_ge p ps,
            fun hq => hq _ (listMax_mem p ps)⟩

/-- Witness for C7_confidence at a registered classifier bundle. -/
theorem C7_confidence_witness :
    (modelsC7 "network" = some bundleC7) ∧
    (predict fsEmpty modelsC7 "network" [("x", PyV.num 3)]
      = (Except.ok { prediction := PyV.num 7, confidence := some (listMax 1 [0]) },
          modelsC7)) ∧
    (({ prediction := PyV.num 7, confidence := some (listMax 1 [0]) } :
        PredResult).confidence.isSome = true ↔
      ∃ pf prf, bundleC7.model = MLModel.classifier pf prf) :=
  ⟨rfl, rfl,
    (C7_confidence fsEmpty modelsC7 "network" [("x", PyV.num 3)] bundleC7
      { prediction := PyV.num 7, confidence := some (listMax 1 [0]) }
      modelsC7 rfl rfl).1⟩

/-! ### Enhancement Composer theorems -/

theorem all_false_of_mem {α : Type} (p : α → Bool) (l : List α) (x : α)
    (hx : x ∈ l) (hpx : p x = false) : l.all p = false := by
  induction l with
  | nil => simp at hx
  | cons a as ih =>
    rw [List.all_cons]
    rcases List.mem_cons.mp hx with rfl | hx'
    · rw [hpx]
      rfl
    · rw [ih hx']
      simp

theorem enhanceNetwork_social (fs : FS) (models : Registry) (datasets : Datasets)
    (e : Entity) : (enhanceNetwork fs models datasets e).1.social = e.social := by
  unfold enhanceNetwork
  cases e.connectivity with
  | none => rfl
  | some conn =>
    dsimp only []
    split
    · split
      · split <;> rfl
      · rfl
    · rfl

theorem enhanceNetwork_skip (fs : FS) (models : Registry) (datasets : Datasets)
    (e : Entity) (conn : Connectivity) (cfg : DatasetCfg)
    (hc : e.connectivity = some conn) (hd : datasets "network" = some cfg)
    (hmiss : cfg.features.all
      (fun feat => hasKey (filterNone (networkInput conn)) feat) = false) :
    enhanceNetwork fs models datasets e = (e, models) := by
  unfold enhanceNetwork
  rw [hc]
  dsimp only []
  rw [hd]
  simp only [Option.isSome_some, if_true]
  rw [show (Option.map DatasetCfg.features (some cfg)).getD [] = cfg.features from rfl]
  rw [hmiss]
  rfl

theorem enhanceNetwork_conn_none (fs : FS) (models : Registry) (datasets : Datasets)
    (e : Entity) (hc : e.connectivity = none) :
    enhanceNetwork fs models datasets e = (e, models) := by
  unfold enhanceNetwork
  rw [hc]

theorem enhanceSocial_connectivity (fs : FS) (models : Registry) (datasets : Datasets)
    (orig cur : Entity) :
    (enhanceSocial fs models datasets orig cur).1.connectivity = cur.connectivity := by
  unfold enhanceSocial
  cases orig.social with
  | none => rfl
  | some sOrig =>
    cases cur.social with
    | none => rfl
    | some sCur =>
      dsimp only []
      split
      · split
        · split <;> rfl
        · rfl
      · rfl

theorem enhanceSocial_skip (fs : FS) (models : Registry) (datasets : Datasets)
    (orig cur : Entity) (sOrig sCur : Social) (cfg : DatasetCfg)
    (h1 : orig.social = some sOrig) (h2 : cur.social = some sCur)
    (hd : datasets "social" = some cfg)
    (hmiss : cfg.features.all
      (fun feat => hasKey (filterNone (socialInput sOrig)) feat) = false) :
    enhanceSocial fs models datasets orig cur = (cur, models) := by
  unfold enhanceSocial
  rw [h1, h2]
  dsimp only []
  rw [hd]
  simp only [Option.isSome_some, if_true]
  rw [show (Option.map DatasetCfg.features (some cfg)).getD [] = cfg.features from rfl]
  rw [hmiss]
  rfl

theorem enhanceSocial_cur_none (fs : FS) (models : Registry) (datasets : Datasets)
    (orig cur : Entity) (h : cur.social = none) :
    enhanceSocial fs models datasets orig cur = (cur, models) := by
  unfold enhanceSocial
  rw [h]
  cases orig.social <;> rfl

/-- C3 claim theorem: enhance_location_data always stamps the returned entity
with enhanced_by_deepmind = true and the ISO-8601 rendering of the current
instant, however many sub-domains produced predictions; and whenever some
feature a sub-domain's model requires is absent from the None-filtered
derived mapping, that sub-domain's section is returned unchanged — no
prediction fields are added (an absent section likewise stays absent). -/
theorem C3_composer_stamp_and_skip (fs : FS) (models : Registry)
    (datasets : Datasets) (now : Timestamp) (e : Entity) :
    ((enhance_location_data fs models datasets now e).1.enhanced_by_deepmind
      = some true) ∧
    ((enhance_location_data fs models datasets now e).1.enhancement_timestamp
      = some (isoformat now)) ∧
    (now.valid → IsIso8601 (isoformat now)) ∧
    (∀ conn cfg, e.connectivity = some conn → datasets "network" = some cfg →
      (∃ feat ∈ cfg.features, hasKey (filterNone (networkInput conn)) feat = false) →
      (enhance_location_data fs models datasets now e).1.connectivity
        = e.connectivity) ∧
    (∀ sOrig cfg, e.social = some sOrig → datasets "social" = some cfg →
      (∃ feat ∈ cfg.features, hasKey (filterNone (socialInput sOrig)) feat = false) →
      (enhance_location_data fs models datasets now e).1.social = e.social) ∧
    (e.connectivity = none →
      (enhance_location_data fs models datasets now e).1.connectivity = none) ∧
    (e.social = none →
      (enhance_location_data fs models datasets now e).1.social = none) := by
  refine ⟨rfl, rfl, fun hv => ⟨now, hv, rfl⟩, ?_, ?_, ?_, ?_⟩
  · rintro conn cfg hc hd ⟨feat, hf, habs⟩
    have hmiss := all_false_of_mem _ cfg.features feat hf habs
    have h1 : enhanceNetwork fs models datasets e = (e, models) :=
      enhanceNetwork_skip fs models datasets e conn cfg hc hd hmiss
    show (enhanceSocial fs (enhanceNetwork fs models datasets e).2 datasets e
        (enhanceNetwork fs models datasets e).1).1.connectivity = e.connectivity
    rw [h1]
    exact enhanceSocial_connectivity fs models datasets e e
  · rintro sOrig cfg hs hd ⟨feat, hf, habs⟩
    have hmiss := all_false_of_mem _ cfg.features feat hf habs
    have hsoc : (enhanceNetwork fs models datasets e).1.social = e.social :=
      enhanceNetwork_social fs models datasets e
    have h2 : (enhanceNetwork fs models datasets e).1.social = some sOrig := by
      rw [hsoc, hs]
    show (enhanceSocial fs (enhanceNetwork fs models datasets e).2 datasets e
        (enhanceNetwork fs models datasets e).1).1.social = e.social
    rw [enhanceSocial_skip fs (enhanceNetwork fs models datasets e).2 datasets e
      (enhanceNetwork fs models datasets e).1 sOrig sOrig cfg hs h2 hd hmiss]
    exact hsoc
  · intro h
    have h1 := enhanceNetwork_conn_none fs models datasets e h
    show (enhanceSocial fs (enhanceNetwork fs models datasets e).2 datasets e
        (enhanceNetwork fs models datasets e).1).1.connectivity = none
    rw [h1]
    rw [enhanceSocial_connectivity fs models datasets e e]
    exact h
  · intro h
    have hsoc : (enhanceNetwork fs models datasets e).1.social = none := by
      rw [enhanceNetwork_social fs models datasets e, h]
    show (enhanceSocial fs (enhanceNetwork fs models datasets e).2 datasets e
        (enhanceNetwork fs models datasets e).1).1.social = none
    rw [enhanceSocial_cur_none fs (enhanceNetwork fs models datasets e).2 datasets e
      (enhanceNetwork fs models datasets e).1 hsoc]
    exact hsoc

/-- Witness for C3_composer_stamp_and_skip at a sectionless entity and a
concrete instant. -/
theorem C3_composer_stamp_and_skip_witness :
    now0.valid ∧
    ((enhance_location_data fsEmpty regEmpty dsNone now0 entMin).1.enhanced_by_deepmind
      = some true) ∧
    ((enhance_location_data fsEmpty regEmpty dsNone now0 entMin).1.enhancement_timestamp
      = some (isoformat now0)) ∧
    IsIso8601 (isoformat now0) :=
  ⟨by decide,
    (C3_composer_stamp_and_skip fsEmpty regEmpty dsNone now0 entMin).1,
    (C3_composer_stamp_and_skip fsEmpty regEmpty dsNone now0 entMin).2.1,
    (C3_composer_stamp_and_skip fsEmpty regEmpty dsNone now0 entMin).2.2.1 (by decide)⟩

/-! ### Chunk Synthesizer theorems -/

theorem chunk_decomposition (r : LocationMemory) :
    process_location_memory_to_chunks r
      = identityChunk r ::
          (traitsChunkOpt r ++ vcChunkOpt r ++ cuChunkOpt r ++ vpChunkOpt r) := by
  unfold process_location_memory_to_chunks traitsChunkOpt vcChunkOpt cuChunkOpt vpChunkOpt
  cases hpd : r.personality_data with
  | none => cases hvp : r.voice_profile <;> simp
  | some pd =>
    cases hvc : pd.voiceCharacteristics <;> cases hcu : pd.culturalInfluence <;>
      cases hvp : r.voice_profile <;> by_cases ht : pd.traits.isEmpty <;>
        simp [ht, hvc, hcu, hvp]

/-- C8 claim theorem: the chunker always emits the mandatory
identity+coordinates+interaction-summary chunk first; then exactly one chunk
per optional section — personality traits, voice characteristics, cultural
influences, voice profile, in that fixed order — each present exactly when
its section exists and is non-empty on the record; a record with no optional
sections yields exactly the one mandatory chunk. -/
theorem C8_chunk_synthesis (r : LocationMemory) :
    process_location_memory_to_chunks r
      = identityChunk r ::
          (traitsChunkOpt r ++ vcChunkOpt r ++ cuChunkOpt r ++ vpChunkOpt r) ∧
    (process_location_memory_to_chunks r).head? = some (identityChunk r) ∧
    (process_location_memory_to_chunks r).length
      = 1 + (traitsChunkOpt r).length + (vcChunkOpt r).length
          + (cuChunkOpt r).length + (vpChunkOpt r).length ∧
    ((traitsChunkOpt r).length = 1 ↔
      ∃ pd, r.personality_data = some pd ∧ pd.traits ≠ []) ∧
    ((vcChunkOpt r).length = 1 ↔
      ∃ pd vc, r.personality_data = some pd ∧ pd.voiceCharacteristics = some vc) ∧
    ((cuChunkOpt r).length = 1 ↔
      ∃ pd cu, r.personality_data = some pd ∧ pd.culturalInfluence = some cu) ∧
    ((vpChunkOpt r).length = 1 ↔ ∃ vp, r.voice_profile = some vp) ∧
    ((traitsChunkOpt r).length ≤ 1 ∧ (vcChunkOpt r).length ≤ 1 ∧
      (cuChunkOpt r).length ≤ 1 ∧ (vpChunkOpt r).length ≤ 1) ∧
    (r.personality_data = none → r.voice_profile = none →
      process_location_memory_to_chunks r = [identityChunk r]) := by
  have hdec := chunk_decomposition r
  refine ⟨hdec, ?_, ?_, ?_, ?_, ?_, ?_, ?_, ?_⟩
  · rw [hdec]; rfl
  · rw [hdec]
    simp [List.length_append]
    omega
  · unfold traitsChunkOpt
    cases hpd : r.personality_data with
    | none => simp
    | some pd =>
      dsimp only []
      by_cases ht0 : pd.traits.isEmpty
      · rw [if_pos ht0]
        have ht : pd.traits = [] := List.isEmpty_iff.mp ht0
        simp [ht]
      · rw [if_neg ht0]
        have ht : pd.traits ≠ [] := fun h => ht0 (List.isEmpty_iff.mpr h)
        simp [ht]
  · unfold vcChunkOpt
    cases hpd : r.personality_data with
    | none => simp
    | some pd =>
      dsimp only []
      cases hvc : pd.voiceCharacteristics with
      | none => simp [hvc]
      | some vc => simp [hvc]
  · unfold cuChunkOpt
    cases hpd : r.personality_data with
    | none => simp
    | some pd =>
      dsimp only []
      cases hcu : pd.culturalInfluence with
      | none => simp [hcu]
      | some cu => simp [hcu]
  · unfold vpChunkOpt
    cases hvp : r.voice_profile with
    | none => simp [hvp]
    | some vp => simp [hvp]
  · refine ⟨?_, ?_, ?_, ?_⟩
    · unfold traitsChunkOpt
      cases hpd : r.personality_data with
      | none => simp
      | some pd =>
        dsimp only []
        by_cases ht : pd.traits.isEmpty <;> simp [ht]
    · unfold vcChunkOpt
      cases hpd : r.personality_data with
      | none => simp
      | some pd =>
        dsimp only []
        cases hvc : pd.voiceCharacteristics <;> simp [hvc]
    · unfold cuChunkOpt
      cases hpd : r.personality_data with
      | none => simp
      | some pd =>
        dsimp only []
        cases hcu : pd.culturalInfluence <;> simp [hcu]
    · unfold vpChunkOpt
      cases hvp : r.voice_profile <;> simp [hvp]
  · intro h1 h2
    rw [hdec]
    unfold traitsChunkOpt vcChunkOpt cuChunkOpt vpChunkOpt
    rw [h1, h2]
    rfl

/-- Witness for C8_chunk_synthesis: a record with no optional sections yields
exactly the mandatory chunk. -/
theorem C8_chunk_synthesis_witness :
    (recMinimal.personality_data = none ∧ recMinimal.voice_profile = none) ∧
    process_location_memory_to_chunks recMinimal = [identityChunk recMinimal] :=
  ⟨⟨rfl, rfl⟩, (C8_chunk_synthesis recMinimal).2.2.2.2.2.2.2.2 rfl rfl⟩

/-! ### Embedding Pipeline theorems -/

theorem procBatch_text (embed : List String → Option (List (List ℚ)))
    (st rid : String) (b : List String) :
    (procBatch embed st rid b).map (fun er => er.text_chunk) = b := by
  unfold procBatch
  cases he : embed b with
  | none =>
    dsimp only []
    rw [List.map_map]
    exact List.map_id b
  | some vs =>
    dsimp only []
    by_cases hl : vs.length = b.length
    · rw [if_pos hl, List.map_map]
      have : ((b.zip vs).map fun cv =>
          ({ text_chunk := cv.1, embedding := some cv.2, source_table := st,
             source_record_id := rid,
             model_used := embeddingModelName } : EmbeddingRecord)).map
            (fun er => er.text_chunk) = (b.zip vs).map Prod.fst := by
        rw [List.map_map]
        rfl
      rw [List.map_map] at this
      rw [this]
      exact List.map_fst_zip b vs (le_of_eq hl.symm)
    · rw [if_neg hl, List.map_map]
      exact List.map_id b

theorem procBatch_prop (embed : List String → Option (List (List ℚ)))
    (st rid : String) (b : List String) :
    (∀ er ∈ procBatch embed st rid b, er.embedding = none) ∨
    (∃ vs, embed b = some vs ∧ vs.length = b.length ∧
      (procBatch embed st rid b).map (fun er => er.embedding) = vs.map some) := by
  unfold procBatch
  cases he : embed b with
  | none =>
    dsimp only []
    left
    intro er her
    rw [List.mem_map] at her
    obtain ⟨c, _, hc⟩ := her
    rw [← hc]
  | some vs =>
    dsimp only []
    by_cases hl : vs.length = b.length
    · right
      refine ⟨vs, rfl, hl, ?_⟩
      rw [if_pos hl, List.map_map]
      have hz : ((b.zip vs).map fun cv => some cv.2) = (b.zip vs).map (some ∘ Prod.snd) := rfl
      show ((b.zip vs).map fun cv => some cv.2) = vs.map some
      rw [hz, ← List.map_map]
      rw [List.map_snd_zip b vs (le_of_eq hl)]
    · left
      rw [if_neg hl]
      intro er her
      rw [List.mem_map] at her
      obtain ⟨c, _, hc⟩ := her
      rw [← hc]

theorem batches100Aux_join : ∀ (fuel : Nat) (l : List String), l.length ≤ fuel →
    (batches100Aux fuel l).flatMap id = l := by
  intro fuel
  induction fuel with
  | zero =>
    intro l hl
    have : l = [] := List.eq_nil_of_length_eq_zero (Nat.le_zero.mp hl)
    rw [this]
    rfl
  | succ n ih =>
    intro l hl
    cases l with
    | nil => rfl
    | cons x xs =>
      show ((x :: xs).take 100 :: batches100Aux n ((x :: xs).drop 100)).flatMap id
        = x :: xs
      rw [List.flatMap_cons]
      have hdrop : ((x :: xs).drop 100).length ≤ n := by
        rw [List.length_drop]
        simp only [List.length_cons] at hl ⊢
        omega
      rw [ih ((x :: xs).drop 100) hdrop]
      show (x :: xs).take 100 ++ (x :: xs).drop 100 = x :: xs
      exact List.take_append_drop 100 (x :: xs)

theorem flatMap_map_text (embed : List String → Option (List (List ℚ)))
    (st rid : String) : ∀ bs : List (List String),
    (bs.flatMap (procBatch embed st rid)).map (fun er => er.text_chunk)
      = bs.flatMap id := by
  intro bs
  induction bs with
  | nil => rfl
  | cons b rest ih =>
    rw [List.flatMap_cons, List.flatMap_cons, List.map_append, ih,
      procBatch_text embed st rid b]
    rfl

theorem flatMap_map_fn {α β : Type} (f : α → List β) : ∀ l : List α,
    (l.map f).flatMap id = l.flatMap f := by
  intro l
  induction l with
  | nil => rfl
  | cons x xs ih =>
    rw [List.map_cons, List.flatMap_cons, List.flatMap_cons, ih]
    rfl

/-- C2 claim theorem: generate_embeddings_for_chunks returns exactly one
EmbeddingRecord per input chunk, in the original chunk order (the records'
text_chunk sequence is the chunk list), assembled batch by batch over the
100-sized slices; within each batch either every record carries a None
embedding (exception or count mismatch — no partial assignment) or the
returned vectors are assigned in order; and the concrete 150-chunk run whose
second batch fails yields 100 records with vectors followed by 50 records
with None. -/
theorem C2_embedding_pipeline :
    (∀ (embed : List String → Option (List (List ℚ))) (chunks : List String)
        (st rid : String),
      (generate_embeddings_for_chunks embed chunks st rid).map
          (fun er => er.text_chunk) = chunks ∧
      (generate_embeddings_for_chunks embed chunks st rid).length = chunks.length ∧
      ∃ parts : List (List EmbeddingRecord),
        generate_embeddings_for_chunks embed chunks st rid = parts.flatMap id ∧
        parts.length = (batches100 chunks).length ∧
        ∀ i b p, (batches100 chunks).get? i = some b → parts.get? i = some p →
          p.map (fun er => er.text_chunk) = b ∧
          ((∀ er ∈ p, er.embedding = none) ∨
            (∃ vs, embed b = some vs ∧ vs.length = b.length ∧
              p.map (fun er => er.embedding) = vs.map some))) ∧
    (generate_embeddings_for_chunks embedC2 chunks150 "location_memories" "rec-1").map
        (fun er => er.embedding)
      = List.replicate 100 (some [1]) ++ List.replicate 50 none := by
  constructor
  · intro embed chunks st rid
    have htext : (generate_embeddings_for_chunks embed chunks st rid).map
        (fun er => er.text_chunk) = chunks := by
      unfold generate_embeddings_for_chunks
      rw [flatMap_map_text embed st rid (batches100 chunks)]
      exact batches100Aux_join chunks.length chunks (le_refl _)
    refine ⟨htext, ?_, ?_⟩
    · have := congrArg List.length htext
      rw [List.length_map] at this
      exact this
    · refine ⟨(batches100 chunks).map (procBatch embed st rid), ?_, ?_, ?_⟩
      · unfold generate_embeddings_for_chunks
        rw [flatMap_map_fn (procBatch embed st rid) (batches100 chunks)]
      · rw [List.length_map]
      · intro i b p hb hp
        rw [List.get?_map, hb] at hp
        have hpb : p = procBatch embed st rid b := by
          injection hp with h
          exact h.symm
        subst hpb
        exact ⟨procBatch_text embed st rid b, procBatch_prop embed st rid b⟩
  · decide

/-- Witness for C2_embedding_pipeline at the concrete 150-chunk run. -/
theorem C2_embedding_pipeline_witness :
    (generate_embeddings_for_chunks embedC2 chunks150 "location_memories" "rec-1").map
        (fun er => er.text_chunk) = chunks150 ∧
    (generate_embeddings_for_chunks embedC2 chunks150 "location_memories" "rec-1").length
      = chunks150.length :=
  ⟨(C2_embedding_pipeline.1 embedC2 chunks150 "location_memories" "rec-1").1,
    (C2_embedding_pipeline.1 embedC2 chunks150 "location_memories" "rec-1").2.1⟩

end EarthEnhancer
